import Mathlib

/-!
# Verification of the timestamp core of `grab_burst.py`

Shallow embedding of the timestamp-normalization / rendering / URL-time
extraction / burst-sequencing core of `grab_burst.py`.

Modelling conventions:
* Python floats are modelled exactly as rationals (`ℚ`).  Python's `float()`
  on a decimal literal rounds to the nearest binary double; the model keeps
  the exact decimal value.
* The regex classes `\d` and `\s` are modelled over their ASCII ranges.
* Each Python regex is anchored (`^ ... $`); it is modelled by a structural
  parser over `List Char` that fuses matching with the group extraction and
  arithmetic its call site performs.  Greedy repetition followed by a
  non-overlapping context needs no backtracking; where the regex does
  backtrack (optional groups such as `(?:in)?`), the model tries the greedy
  alternative first and falls back, exactly as the regex engine does.
* Fallible Python code (`raise ValueError`) becomes `Except` / `Option`.
-/

deriving instance DecidableEq for Except

namespace GrabBurst

/-- ASCII whitespace, as stripped by Python `str.strip()` and matched by the
regex class `\s` (restricted to its ASCII range). -/
def pySpace (c : Char) : Bool :=
  c = ' ' || c = '\t' || c = '\n' || c = '\r' || c = '\x0b' || c = '\x0c'

/-- Python `str.strip()`: remove leading and trailing whitespace. -/
def pyStrip (l : List Char) : List Char :=
  ((l.dropWhile pySpace).reverse.dropWhile pySpace).reverse

/-- Numeric value of an ASCII digit character. -/
def digitVal (c : Char) : ℕ := c.toNat - 48

/-- Value of a digit string, as computed by Python `int()` on an all-digit
string (leading zeros allowed). -/
def digitsToNat (l : List Char) : ℕ := l.foldl (fun a c => 10 * a + digitVal c) 0

/-- Exact value of the decimal literal `d "." f` (Python `float()` on such a
string, idealized to the exact rational). -/
def decVal (d f : List Char) : ℚ :=
  (digitsToNat d : ℚ) + (digitsToNat f : ℚ) / 10 ^ f.length

/-- A maximal leading run of digits, as a `\d+` (or `\d{1,2}` followed by a
non-digit) group captures it. -/
def digitSpan (l : List Char) : List Char × List Char :=
  (l.takeWhile Char.isDigit, l.dropWhile Char.isDigit)

/-- A leading decimal literal `\d+(\.\d+)?`, returning its exact value and the
rest of the input.  The fractional part is consumed only when at least one
digit follows the dot, as the regex group does; committing to the fraction is
equivalent to the engine's backtracking here because every context that
follows this group in the source's patterns (whitespace, `s`, end of input)
rejects a leading `'.'`. -/
def decSpan (l : List Char) : Option (ℚ × List Char) :=
  let (d, r) := digitSpan l
  if d.isEmpty then none
  else
    match r with
    | '.' :: r2 =>
      let (f, r3) := digitSpan r2
      if f.isEmpty then some ((digitsToNat d : ℚ), r)
      else some (decVal d f, r3)
    | _ => some ((digitsToNat d : ℚ), r)

/-- Form 1, `_ts_hms = ^\s*(\d{1,2}:)?\d{1,2}:\d{1,2}(?:\.\d+)?\s*$` on the
already-stripped input, fused with the evaluation the matching branch of
`hhmmss_to_seconds` performs: split on `':'`, default the hours field to 0,
and return `int(h)*3600 + int(m)*60 + float(s)`. -/
def tsHms (l : List Char) : Option ℚ :=
  let (d1, r1) := digitSpan l
  if d1.isEmpty || 2 < d1.length then none
  else
    match r1 with
    | ':' :: r2 =>
      let (d2, r3) := digitSpan r2
      if d2.isEmpty || 2 < d2.length then none
      else
        match r3 with
        | ':' :: r4 =>
          let (d3, r5) := digitSpan r4
          if d3.isEmpty || 2 < d3.length then none
          else
            match r5 with
            | [] =>
              some ((digitsToNat d1 : ℚ) * 3600 + (digitsToNat d2 : ℚ) * 60 +
                (digitsToNat d3 : ℚ))
            | '.' :: r6 =>
              let (f, r7) := digitSpan r6
              if f.isEmpty || !r7.isEmpty then none
              else
                some ((digitsToNat d1 : ℚ) * 3600 + (digitsToNat d2 : ℚ) * 60 +
                  decVal d3 f)
            | _ => none
        | [] => some ((digitsToNat d1 : ℚ) * 60 + (digitsToNat d2 : ℚ))
        | '.' :: r4 =>
          let (f, r5) := digitSpan r4
          if f.isEmpty || !r5.isEmpty then none
          else some ((digitsToNat d1 : ℚ) * 60 + decVal d2 f)
        | _ => none
    | _ => none

/-- The optional `(?:ec(?:onds?)?)?` unit suffix of form 2 followed by end of
(stripped) input: the residue must be one of "", "ec", "econd", "econds",
case-insensitively. -/
def msEnd (r : List Char) : Bool :=
  let low := r.map Char.toLower
  low = [] || low = ['e', 'c'] || low = ['e', 'c', 'o', 'n', 'd'] ||
    low = ['e', 'c', 'o', 'n', 'd', 's']

/-- Tail of form 2 after the minutes group and its `m` unit (and an optional
`in`): `\s*(\d+(?:\.\d+)?)\s*s(?:ec(?:onds?)?)?$`, evaluated as
`int(m)*60 + float(s)`. -/
def msTail (m : ℕ) (l : List Char) : Option ℚ :=
  match decSpan (l.dropWhile pySpace) with
  | none => none
  | some (s, r) =>
    match r.dropWhile pySpace with
    | c :: r2 =>
      if (c = 's' || c = 'S') && msEnd r2 then some ((m : ℚ) * 60 + s) else none
    | [] => none

/-- Form 2, `_ts_ms = ^\s*(\d+)\s*m(?:in)?\s*(\d+(?:\.\d+)?)\s*s(?:ec(?:onds?)?)?\s*$`,
case-insensitive, on stripped input.  The optional `in` is tried greedily
first, falling back exactly as the regex engine backtracks. -/
def tsMs (l : List Char) : Option ℚ :=
  let (md, r1) := digitSpan l
  if md.isEmpty then none
  else
    match r1.dropWhile pySpace with
    | c :: r2 =>
      if c = 'm' || c = 'M' then
        (match r2 with
         | a :: b :: r3 =>
           if (a = 'i' || a = 'I') && (b = 'n' || b = 'N') then
             msTail (digitsToNat md) r3
           else none
         | _ => none) <|> msTail (digitsToNat md) r2
      else none
    | [] => none

/-- Form 3, `_ts_suff = ^\s*(\d+(?:\.\d+)?)\s*s\s*$`, case-insensitive, on
stripped input; value `float(group 1)`. -/
def tsSuff (l : List Char) : Option ℚ :=
  match decSpan l with
  | none => none
  | some (s, r) =>
    match r.dropWhile pySpace with
    | [c] => if c = 's' || c = 'S' then some s else none
    | _ => none

/-- Form 4, `_ts_plain = ^\s*\d+(?:\.\d+)?\s*$` on stripped input; value
`float(ts)`. -/
def tsPlain (l : List Char) : Option ℚ :=
  match decSpan l with
  | none => none
  | some (v, r) => if r.isEmpty then some v else none

/-- Form 5, `_ts_dot_m_s = ^\s*(\d+)\.(\d{1,2})\s*$` on stripped input; the
dotted minute.second shorthand, value `int(m)*60 + float(s)`. -/
def tsDotMs (l : List Char) : Option ℚ :=
  let (md, r1) := digitSpan l
  if md.isEmpty then none
  else
    match r1 with
    | '.' :: r2 =>
      let (sd, r3) := digitSpan r2
      if sd.isEmpty || 2 < sd.length || !r3.isEmpty then none
      else some ((digitsToNat md : ℚ) * 60 + (digitsToNat sd : ℚ))
    | _ => none

/-- Function `hhmmss_to_seconds` from `grab_burst.py`: strip the input, try the five
forms in source order (`_ts_hms`, `_ts_ms`, `_ts_suff`, `_ts_plain`,
`_ts_dot_m_s`), first match wins; raise `ValueError` (modelled as
`Except.error` carrying the message built from the stripped input) when none
match. -/
def hhmmss_to_seconds (ts : String) : Except String ℚ :=
  let l := pyStrip ts.toList
  match tsHms l with
  | some v => .ok v
  | none =>
    match tsMs l with
    | some v => .ok v
    | none =>
      match tsSuff l with
      | some v => .ok v
      | none =>
        match tsPlain l with
        | some v => .ok v
        | none =>
          match tsDotMs l with
          | some v => .ok v
          | none => .error ("Unrecognized timestamp format: " ++ String.mk l)

/-- Base-10 digits of a natural number, most significant first, written with
explicit fuel so that kernel reduction works; `n + 1` fuel always suffices. -/
def natDigitsAux : ℕ → ℕ → List Char
  | 0, _ => []
  | fuel + 1, n =>
    if n < 10 then [Char.ofNat (48 + n)]
    else natDigitsAux fuel (n / 10) ++ [Char.ofNat (48 + n % 10)]

/-- Decimal digit string of a natural number, most significant first. -/
def natDigits (n : ℕ) : List Char := natDigitsAux (n + 1) n

/-- Python format `"{n:0Wd}"`: the decimal digits of `n`, left-padded with
zeros to width `W`.  (Modelled for `n ≥ 0`, the only values the program
formats; a negative value would render with a sign in Python.) -/
def intPad (w : ℕ) (n : ℤ) : List Char :=
  let d := natDigits n.toNat
  List.replicate (w - d.length) '0' ++ d

/-- Python `str.rstrip(c)`: drop every trailing occurrence of `c`. -/
def rstripChar (c : Char) (l : List Char) : List Char :=
  (l.reverse.dropWhile (fun d => d = c)).reverse

/-- Function `seconds_to_hhmmss_ms` from `grab_burst.py`:

```
whole = int(math.floor(x)); frac = x - whole
h = whole // 3600; m = (whole % 3600) // 60; s = (whole % 60) + frac
return f"{h:02d}:{m:02d}:{s:06.3f}".rstrip('0').rstrip('.')
```

Python's `//` and `%` on integers are floor division and modulus
(`Int.fdiv` / `Int.fmod`).  The fixed-point format `"{s:06.3f}"` renders
`s` rounded to 3 decimal places, zero-padded to width 6 (so a 2-digit
zero-padded integer part, a dot, and exactly 3 fractional digits, for the
non-negative `s` arising here); the rounding of the exact rational is
modelled as round-half-up (Python rounds the nearest binary double with
round-half-even, which only differs on exact half-millisecond doubles). -/
def seconds_to_hhmmss_ms (x : ℚ) : String :=
  let whole : ℤ := ⌊x⌋
  let frac : ℚ := x - (whole : ℚ)
  let h : ℤ := Int.fdiv whole 3600
  let m : ℤ := Int.fdiv (Int.fmod whole 3600) 60
  let s : ℚ := ((Int.fmod whole 60 : ℤ) : ℚ) + frac
  let smillis : ℤ := ⌊s * 1000 + 1 / 2⌋
  let ip : ℤ := Int.fdiv smillis 1000
  let fp : ℤ := Int.fmod smillis 1000
  String.mk (rstripChar '.' (rstripChar '0'
    (intPad 2 h ++ ':' :: intPad 2 m ++ ':' :: intPad 2 ip ++ '.' :: intPad 3 fp)))

/-- Tail of the inline regex of `extract_t_from_url` after the optional
minutes group: `(\d+(?:\.\d+)?)s?\s*$` on stripped input, with the value
`(int(mm) * 60 if mm else 0) + float(ss)`. -/
def urlTimeTail (m : ℕ) (l : List Char) : Option ℚ :=
  match decSpan l with
  | none => none
  | some (v, r) =>
    match r with
    | [] => some ((m : ℚ) * 60 + v)
    | [c] => if c = 's' || c = 'S' then some ((m : ℚ) * 60 + v) else none
    | _ => none

/-- The inline regex of `extract_t_from_url`:
`^\s*(?:(\d+)m)?(\d+(?:\.\d+)?)s?\s*$`, case-insensitive.  The optional
minutes group is tried greedily first, falling back exactly as the regex
engine backtracks.  The `\s*` padding is equivalent to matching the core
pattern on the stripped input, since no element of the core pattern matches
a whitespace character. -/
def urlTimeParse (raw : List Char) : Option ℚ :=
  let l := pyStrip raw
  let withMinutes : Option ℚ :=
    let (md, r1) := digitSpan l
    if md.isEmpty then none
    else
      match r1 with
      | c :: r2 =>
        if c = 'm' || c = 'M' then urlTimeTail (digitsToNat md) r2 else none
      | [] => none
  withMinutes <|> urlTimeTail 0 l

/-- Python `float(str)` on the grammar `ws [sign] (\d+(\.\d*)? | \.\d+) ws`,
returning `none` where Python raises `ValueError`.  Exponents, `inf`/`nan`,
and underscore digit separators are accepted by Python but not modelled;
on those inputs the model signals failure instead. -/
def pyFloat (raw : List Char) : Option ℚ :=
  let body : List Char → Option ℚ := fun l1 =>
    let (d, r) := digitSpan l1
    match r with
    | [] => if d.isEmpty then none else some ((digitsToNat d : ℚ))
    | '.' :: r2 =>
      let (f, r3) := digitSpan r2
      if (d.isEmpty && f.isEmpty) || !r3.isEmpty then none
      else some (decVal d f)
    | _ => none
  match pyStrip raw with
  | '+' :: r => body r
  | '-' :: r => (body r).map (fun v => -v)
  | l => body l

/-- The query component that `urlparse(url).query` extracts: everything after
the first `'?'` of the part before the first `'#'`.  `urlsplit` first removes
any tab, CR, and LF characters from the URL (the WHATWG unsafe bytes); its
scheme/netloc analysis does not affect the query component. -/
def urlQuery (u : List Char) : List Char :=
  let u1 := u.filter (fun c => !(c = '\t' || c = '\r' || c = '\n'))
  let pre := u1.takeWhile (fun c => c ≠ '#')
  (pre.dropWhile (fun c => c ≠ '?')).drop 1

/-- Python `'+'`-to-space decoding of `urllib.parse.unquote_plus` (percent
escapes are accepted by Python but not modelled; the keys and values the
program looks at are plain ASCII). -/
def unquotePlus (l : List Char) : List Char :=
  l.map (fun c => if c = '+' then ' ' else c)

/-- Python `parse_qs` (via `parse_qsl`, default arguments): split the query on `'&'`;
split each field at its first `'='`; fields without an `'='` and fields with
an empty value are dropped (`keep_blank_values=False`); the surviving
key/value pairs keep their order. -/
def qsPairs (q : List Char) : List (List Char × List Char) :=
  (q.splitOn '&').filterMap (fun field =>
    let k := field.takeWhile (fun c => c ≠ '=')
    let r := field.dropWhile (fun c => c ≠ '=')
    match r with
    | [] => none
    | _ :: v => if v.isEmpty then none else some (unquotePlus k, unquotePlus v))

/-- All values recorded for `key`, in order (`parse_qs` groups values by key;
a key is present in the dict exactly when it has at least one value). -/
def qsValues (pairs : List (List Char × List Char)) (key : List Char) :
    List (List Char) :=
  (pairs.filter (fun p => p.fst = key)).map Prod.snd

/-- Python `q.get("t") or q.get("start")`: Python `or` takes the second operand when
the first is `None` (absent key) — equivalently, when no `"t"` value exists. -/
def tOrStart (pairs : List (List Char × List Char)) : List (List Char) :=
  let t := qsValues pairs ['t']
  if t.isEmpty then qsValues pairs ['s', 't', 'a', 'r', 't'] else t

/-- Function `extract_t_from_url` from `grab_burst.py`: parse the URL's query string,
take the first `t` (else `start`) value, match it against the inline
minutes/seconds regex, else fall back to `float(raw)`.  The whole body runs
inside `try: ... except Exception: return None`, so every failure — missing
parameter, regex mismatch plus `float` `ValueError` — yields `None`;
the model's total `Option` result realizes exactly that. -/
def extract_t_from_url (url : String) : Option ℚ :=
  match tOrStart (qsPairs (urlQuery url.toList)) with
  | [] => none
  | raw :: _ =>
    match urlTimeParse raw with
    | some v => some v
    | none => pyFloat raw

/-- The base-time resolution of `main()`:

```
if args.start:
    base_seconds = hhmmss_to_seconds(args.start)
else:
    t_from_url = extract_t_from_url(args.url)
    base_seconds = t_from_url if t_from_url is not None else 0.0
```

`if args.start:` is Python truthiness: both an absent `--start` (`None`) and
an explicitly supplied empty string take the URL branch. -/
def resolve_base (start : Option String) (url : String) : Except String ℚ :=
  match start with
  | some s =>
    if s ≠ "" then hhmmss_to_seconds s
    else .ok ((extract_t_from_url url).getD 0)
  | none => .ok ((extract_t_from_url url).getD 0)

/-- The frame-timestamp sequence of `main()`:
`increments = [i * args.step for i in range(args.count)]`, each frame seeking
`base_seconds + inc`. -/
def generate_sequence (base : ℚ) (count : ℕ) (step : ℚ) : List ℚ :=
  ((List.range count).map (fun i : ℕ => (i : ℚ) * step)).map (fun inc => base + inc)

/-! ## Character and digit-string lemmas -/

lemma dropWhile_eq_self_of (p : Char → Bool) (l : List Char)
    (h : ∀ c, l.head? = some c → p c = false) : l.dropWhile p = l := by
  cases l with
  | nil => rfl
  | cons c t => simp [List.dropWhile, h c rfl]

lemma pyStrip_eq_self {l : List Char} (h : ∀ c ∈ l, pySpace c = false) :
    pyStrip l = l := by
  unfold pyStrip
  rw [dropWhile_eq_self_of _ _ (fun c hc => h c (List.mem_of_mem_head? hc)),
    dropWhile_eq_self_of _ _
      (fun c hc => h c (by simpa using List.mem_of_mem_head? hc)),
    List.reverse_reverse]

lemma takeWhile_append_of (p : Char → Bool) (ds rest : List Char)
    (h1 : ∀ c ∈ ds, p c = true)
    (h2 : ∀ c, rest.head? = some c → p c = false) :
    (ds ++ rest).takeWhile p = ds := by
  induction ds with
  | nil =>
    cases rest with
    | nil => rfl
    | cons c t => simp [List.takeWhile, h2 c rfl]
  | cons d ds ih =>
    simp only [List.cons_append, List.takeWhile_cons, h1 d (by simp)]
    simpa using ih (fun c hc => h1 c (by simp [hc]))

lemma dropWhile_append_of (p : Char → Bool) (ds rest : List Char)
    (h1 : ∀ c ∈ ds, p c = true)
    (h2 : ∀ c, rest.head? = some c → p c = false) :
    (ds ++ rest).dropWhile p = rest := by
  induction ds with
  | nil => exact dropWhile_eq_self_of p rest h2
  | cons d ds ih =>
    simp only [List.cons_append, List.dropWhile_cons, h1 d (by simp)]
    simpa using ih (fun c hc => h1 c (by simp [hc]))

lemma digitSpan_append (ds rest : List Char) (h1 : ∀ c ∈ ds, c.isDigit = true)
    (h2 : ∀ c, rest.head? = some c → c.isDigit = false) :
    digitSpan (ds ++ rest) = (ds, rest) := by
  unfold digitSpan
  rw [takeWhile_append_of _ _ _ h1 h2, dropWhile_append_of _ _ _ h1 h2]

lemma digitSpan_all (ds : List Char) (h1 : ∀ c ∈ ds, c.isDigit = true) :
    digitSpan ds = (ds, []) := by
  simpa using digitSpan_append ds [] h1 (by simp)

lemma foldl_digits (l : List Char) (acc : ℕ) :
    l.foldl (fun a c => 10 * a + digitVal c) acc =
      acc * 10 ^ l.length + digitsToNat l := by
  induction l generalizing acc with
  | nil => simp [digitsToNat]
  | cons c t ih =>
    have hc : digitsToNat (c :: t) = digitVal c * 10 ^ t.length + digitsToNat t := by
      unfold digitsToNat
      simpa using ih (digitVal c)
    simp only [List.foldl_cons, List.length_cons, hc]
    rw [ih (10 * acc + digitVal c)]
    ring

lemma digitsToNat_append (a b : List Char) :
    digitsToNat (a ++ b) = digitsToNat a * 10 ^ b.length + digitsToNat b := by
  unfold digitsToNat
  rw [List.foldl_append]
  exact foldl_digits b _

lemma digitsToNat_zeros_append (k : ℕ) (l : List Char) :
    digitsToNat (List.replicate k '0' ++ l) = digitsToNat l := by
  rw [digitsToNat_append]
  have hz : digitsToNat (List.replicate k '0') = 0 := by
    induction k with
    | zero => rfl
    | succ k ih =>
      have : digitsToNat ('0' :: List.replicate k '0') =
          digitsToNat (List.replicate k '0') := by
        unfold digitsToNat
        simp [digitVal]
      simpa [List.replicate_succ, this] using ih
  simp [hz]

lemma digitsToNat_append_zeros (l : List Char) (k : ℕ) :
    digitsToNat (l ++ List.replicate k '0') = digitsToNat l * 10 ^ k := by
  rw [digitsToNat_append]
  have hz : digitsToNat (List.replicate k '0') = 0 := by
    simpa using digitsToNat_zeros_append k []
  simp [hz]

lemma isDigit_not_pySpace {c : Char} (h : c.isDigit = true) : pySpace c = false := by
  by_contra hs
  simp only [Bool.not_eq_false, pySpace, Bool.or_eq_true, decide_eq_true_eq] at hs
  rcases hs with ((((h1 | h1) | h1) | h1) | h1) | h1 <;> subst h1 <;>
    exact absurd h (by decide)

lemma digitsToNat_singleton (c : Char) : digitsToNat [c] = digitVal c := by
  simp [digitsToNat]

lemma digitChar_spec (m : ℕ) (hm : m < 10) :
    (Char.ofNat (48 + m)).isDigit = true ∧ digitVal (Char.ofNat (48 + m)) = m := by
  interval_cases m <;> exact ⟨by decide, by decide⟩

lemma natDigitsAux_spec :
    ∀ fuel n, n < fuel →
      (∀ c ∈ natDigitsAux fuel n, c.isDigit = true) ∧
      natDigitsAux fuel n ≠ [] ∧
      digitsToNat (natDigitsAux fuel n) = n := by
  intro fuel
  induction fuel with
  | zero => intro n hn; omega
  | succ fuel ih =>
    intro n _
    by_cases h10 : n < 10
    · have he : natDigitsAux (fuel + 1) n = [Char.ofNat (48 + n)] := by
        simp [natDigitsAux, h10]
      obtain ⟨hd, hv⟩ := digitChar_spec n h10
      refine ⟨?_, by simp [he], ?_⟩
      · intro c hc
        rw [he] at hc
        simp only [List.mem_singleton] at hc
        simpa [hc] using hd
      · rw [he, digitsToNat_singleton, hv]
    · have he : natDigitsAux (fuel + 1) n =
          natDigitsAux fuel (n / 10) ++ [Char.ofNat (48 + n % 10)] := by
        simp [natDigitsAux, h10]
      have hlt : n / 10 < fuel := by
        have := Nat.div_lt_self (show 0 < n by omega) (show 1 < 10 by omega)
        omega
      obtain ⟨hdig, hne, hval⟩ := ih (n / 10) hlt
      obtain ⟨hd, hv⟩ := digitChar_spec (n % 10) (Nat.mod_lt _ (by omega))
      refine ⟨?_, by simp [he], ?_⟩
      · intro c hc
        rw [he] at hc
        rcases List.mem_append.mp hc with hc | hc
        · exact hdig c hc
        · simp only [List.mem_singleton] at hc
          simpa [hc] using hd
      · rw [he, digitsToNat_append, digitsToNat_singleton, hval, hv]
        simp only [List.length_singleton, pow_one]
        omega

lemma natDigits_spec (n : ℕ) :
    (∀ c ∈ natDigits n, c.isDigit = true) ∧ natDigits n ≠ [] ∧
      digitsToNat (natDigits n) = n :=
  natDigitsAux_spec (n + 1) n (by omega)

lemma natDigitsAux_length :
    ∀ fuel n k, n < fuel → 1 ≤ k → n < 10 ^ k →
      (natDigitsAux fuel n).length ≤ k := by
  intro fuel
  induction fuel with
  | zero => intro n k hn; omega
  | succ fuel ih =>
    intro n k hn hk hnk
    by_cases h10 : n < 10
    · simpa [natDigitsAux, h10] using hk
    · have he : natDigitsAux (fuel + 1) n =
          natDigitsAux fuel (n / 10) ++ [Char.ofNat (48 + n % 10)] := by
        simp [natDigitsAux, h10]
      have hlt : n / 10 < fuel := by
        have := Nat.div_lt_self (show 0 < n by omega) (show 1 < 10 by omega)
        omega
      have hk2 : 2 ≤ k := by
        by_contra hcon
        have hk1 : k = 1 := by omega
        rw [hk1] at hnk
        simp at hnk
        omega
      have hdiv : n / 10 < 10 ^ (k - 1) := by
        rw [Nat.div_lt_iff_lt_mul (by omega : 0 < 10)]
        calc n < 10 ^ k := hnk
        _ = 10 ^ (k - 1) * 10 := by
              rw [← pow_succ]
              congr 1
              omega
      have := ih (n / 10) (k - 1) hlt (by omega) hdiv
      rw [he]
      simp only [List.length_append, List.length_singleton]
      omega

lemma natDigits_length {n k : ℕ} (hk : 1 ≤ k) (hnk : n < 10 ^ k) :
    (natDigits n).length ≤ k :=
  natDigitsAux_length (n + 1) n k (by omega) hk hnk

lemma intPad_natCast (w n : ℕ) :
    intPad w (n : ℤ) = List.replicate (w - (natDigits n).length) '0' ++ natDigits n := by
  simp [intPad]

lemma intPad_val (w n : ℕ) : digitsToNat (intPad w (n : ℤ)) = n := by
  rw [intPad_natCast, digitsToNat_zeros_append]
  exact (natDigits_spec n).2.2

lemma intPad_digits (w n : ℕ) : ∀ c ∈ intPad w (n : ℤ), c.isDigit = true := by
  intro c hc
  rw [intPad_natCast] at hc
  rcases List.mem_append.mp hc with hc | hc
  · have : c = '0' := List.eq_of_mem_replicate hc
    subst this
    decide
  · exact (natDigits_spec n).1 c hc

lemma intPad_ne_nil (w n : ℕ) : intPad w (n : ℤ) ≠ [] := by
  rw [intPad_natCast]
  intro h
  exact (natDigits_spec n).2.1 (List.append_eq_nil.mp h).2

lemma intPad_length {w n : ℕ} (hw : 1 ≤ w) (h : n < 10 ^ w) :
    (intPad w (n : ℤ)).length = w := by
  rw [intPad_natCast]
  have hle := natDigits_length hw h
  simp only [List.length_append, List.length_replicate]
  omega

lemma head_dropWhile_false (p : Char → Bool) (l : List Char) :
    ∀ c, (l.dropWhile p).head? = some c → p c = false := by
  induction l with
  | nil => intro c hc; simp at hc
  | cons d t ih =>
    intro c hc
    by_cases hp : p d
    · exact ih c (by simpa [List.dropWhile, hp] using hc)
    · simp only [List.dropWhile, hp, List.head?_cons] at hc
      rw [← Option.some_inj.mp hc]
      simpa using hp

lemma takeWhile_all (p : Char → Bool) (l : List Char) :
    ∀ c ∈ l.takeWhile p, p c = true := by
  intro c hc
  exact List.mem_takeWhile_imp hc

lemma decSpan_eq_some {l : List Char} {v : ℚ} {r : List Char}
    (h : decSpan l = some (v, r)) :
    ∃ d f : List Char, d ≠ [] ∧ (∀ c ∈ d, c.isDigit = true) ∧
      (∀ c ∈ f, c.isDigit = true) ∧
      (∀ c, r.head? = some c → c.isDigit = false) ∧
      ((f = [] ∧ l = d ++ r ∧ v = (digitsToNat d : ℚ)) ∨
        (f ≠ [] ∧ l = d ++ '.' :: f ++ r ∧ v = decVal d f)) := by
  unfold decSpan digitSpan at h
  simp only at h
  split_ifs at h with hemp
  have hd0 : l.takeWhile Char.isDigit ≠ [] := by
    simpa [List.isEmpty_iff] using hemp
  have hdall := takeWhile_all Char.isDigit l
  have hsplit : l = l.takeWhile Char.isDigit ++ l.dropWhile Char.isDigit :=
    (List.takeWhile_append_dropWhile Char.isDigit l).symm
  split at h
  case _ r2 heq =>
    split_ifs at h with hf
    · simp only [Option.some.injEq, Prod.mk.injEq] at h
      obtain ⟨hv, hrr⟩ := h
      refine ⟨l.takeWhile Char.isDigit, [], hd0, hdall, by simp, ?_, ?_⟩
      · intro c hc
        rw [← hrr, heq] at hc
        simp only [List.head?_cons, Option.some_inj] at hc
        rw [← hc]
        decide
      · exact Or.inl ⟨rfl, by rw [← hrr]; exact hsplit, hv.symm⟩
    · simp only [Option.some.injEq, Prod.mk.injEq] at h
      obtain ⟨hv, hrr⟩ := h
      have hf0 : r2.takeWhile Char.isDigit ≠ [] := by
        simpa [List.isEmpty_iff] using hf
      refine ⟨l.takeWhile Char.isDigit, r2.takeWhile Char.isDigit, hd0, hdall,
        takeWhile_all Char.isDigit r2, ?_, ?_⟩
      · intro c hc
        rw [← hrr] at hc
        exact head_dropWhile_false Char.isDigit r2 c hc
      · refine Or.inr ⟨hf0, ?_, hv.symm⟩
        rw [← hrr]
        conv =>
          lhs
          rw [hsplit, heq]
        rw [← List.takeWhile_append_dropWhile (p := Char.isDigit) (l := r2)]
        simp
  case _ hne =>
    simp only [Option.some.injEq, Prod.mk.injEq] at h
    obtain ⟨hv, hrr⟩ := h
    refine ⟨l.takeWhile Char.isDigit, [], hd0, hdall, by simp, ?_, ?_⟩
    · intro c hc
      rw [← hrr] at hc
      exact head_dropWhile_false Char.isDigit l c hc
    · exact Or.inl ⟨rfl, by rw [← hrr]; exact hsplit, hv.symm⟩

lemma tsHms_none_of_shape (d rest : List Char) (hd : ∀ c ∈ d, c.isDigit = true)
    (hrest : ∀ c, rest.head? = some c → c.isDigit = false)
    (hcolon : rest.head? ≠ some ':') :
    tsHms (d ++ rest) = none := by
  unfold tsHms
  rw [digitSpan_append d rest hd hrest]
  simp only
  split_ifs with h1
  · rfl
  · split
    · exact absurd rfl hcolon
    · rfl

lemma tsMs_none_of_shape (d rest : List Char) (hd : ∀ c ∈ d, c.isDigit = true)
    (hrest : ∀ c, rest.head? = some c → c.isDigit = false)
    (hm : ∀ c, (rest.dropWhile pySpace).head? = some c → c ≠ 'm' ∧ c ≠ 'M') :
    tsMs (d ++ rest) = none := by
  unfold tsMs
  rw [digitSpan_append d rest hd hrest]
  simp only
  split_ifs with h1
  · rfl
  · cases hcase : rest.dropWhile pySpace with
    | nil => rfl
    | cons c t =>
      obtain ⟨hm1, hm2⟩ := hm c (by rw [hcase]; rfl)
      simp only
      rw [if_neg (by simp [hm1, hm2])]

lemma tsSuff_none_of_decSpan (l : List Char) (v : ℚ)
    (h : decSpan l = some (v, [])) : tsSuff l = none := by
  unfold tsSuff
  rw [h]
  rfl

lemma hhmmss_eq_def (ts : String) :
    hhmmss_to_seconds ts =
      (match tsHms (pyStrip ts.toList) with
        | some v => .ok v
        | none =>
          match tsMs (pyStrip ts.toList) with
          | some v => .ok v
          | none =>
            match tsSuff (pyStrip ts.toList) with
            | some v => .ok v
            | none =>
              match tsPlain (pyStrip ts.toList) with
              | some v => .ok v
              | none =>
                match tsDotMs (pyStrip ts.toList) with
                | some v => .ok v
                | none =>
                  .error ("Unrecognized timestamp format: " ++
                    String.mk (pyStrip ts.toList))) := rfl

/-! ## Claim theorems -/

/-- C1: every input string whose stripped form matches the bare-decimal
pattern `_ts_plain` (digits, optionally a dot and more digits) is parsed by
`hhmmss_to_seconds` as plain seconds — the value the plain-decimal form
extracts — and never as the dotted minute.second shorthand.  In particular
(witness) `"9.40"` parses to `9.4` seconds, not `9*60+40 = 580`. -/
theorem claim_C1 (ts : String) (v : ℚ)
    (h : tsPlain (pyStrip ts.toList) = some v) :
    hhmmss_to_seconds ts = .ok v := by
  have hds : decSpan (pyStrip ts.toList) = some (v, []) := by
    unfold tsPlain at h
    rcases hq : decSpan (pyStrip ts.toList) with _ | ⟨v0, r⟩
    · rw [hq] at h
      exact absurd h (by simp)
    · rw [hq] at h
      simp only at h
      split_ifs at h with hr
      obtain rfl : v0 = v := Option.some_inj.mp h
      rw [List.isEmpty_iff.mp hr]
  obtain ⟨d, f, hd0, hdig, hfdig, hrhead, hcases⟩ := decSpan_eq_some hds
  have h3 : tsSuff (pyStrip ts.toList) = none := tsSuff_none_of_decSpan _ v hds
  rcases hcases with ⟨-, hl, -⟩ | ⟨hf0, hl, -⟩
  · rw [List.append_nil] at hl
    have h1 : tsHms (pyStrip ts.toList) = none := by
      rw [hl, show d = d ++ ([] : List Char) by simp]
      exact tsHms_none_of_shape d [] hdig (by simp) (by simp)
    have h2 : tsMs (pyStrip ts.toList) = none := by
      rw [hl, show d = d ++ ([] : List Char) by simp]
      exact tsMs_none_of_shape d [] hdig (by simp) (by simp)
    rw [hhmmss_eq_def]
    simp only [h1, h2, h3, h]
  · rw [List.append_nil] at hl
    have hdot : ∀ c : Char, ('.' :: f).head? = some c → c.isDigit = false := by
      intro c hc
      simp only [List.head?_cons, Option.some_inj] at hc
      rw [← hc]
      decide
    have hdrop : List.dropWhile pySpace ('.' :: f) = '.' :: f := by
      rw [List.dropWhile_cons_of_neg]
      decide
    have h1 : tsHms (pyStrip ts.toList) = none := by
      rw [hl]
      exact tsHms_none_of_shape d ('.' :: f) hdig hdot (by simp)
    have h2 : tsMs (pyStrip ts.toList) = none := by
      rw [hl]
      refine tsMs_none_of_shape d ('.' :: f) hdig hdot ?_
      intro c hc
      rw [hdrop] at hc
      simp only [List.head?_cons, Option.some_inj] at hc
      rw [← hc]
      exact ⟨by decide, by decide⟩
    rw [hhmmss_eq_def]
    simp only [h1, h2, h3, h]

unseal Rat.add Rat.mul Rat.inv Rat.sub in
/-- Witness for C1 at the spec's own example `"9.40"`: the bare-decimal form
matches and the parse yields `9.4` seconds, which is not `580`. -/
theorem claim_C1_witness :
    tsPlain (pyStrip "9.40".toList) = some (47 / 5) ∧
      hhmmss_to_seconds "9.40" = .ok (47 / 5) ∧ (47 / 5 : ℚ) ≠ 580 :=
  ⟨by decide, claim_C1 "9.40" (47 / 5) (by decide), by decide⟩

/-- C2: for every base seconds `b`, count `n ≥ 0`, and step `s ≥ 0`, the
generated frame-timestamp sequence has exactly `n` elements, its `i`-th
element is `b + i * s` for `i = 0 .. n-1`, it is strictly increasing when
`s > 0`, all its elements equal `b` when `s = 0`, and it is empty (with no
error) when `n = 0`. -/
theorem claim_C2 (b s : ℚ) (n : ℕ) (hs : 0 ≤ s) :
    (generate_sequence b n s).length = n ∧
    (∀ i : ℕ, i < n → (generate_sequence b n s)[i]? = some (b + i * s)) ∧
    (0 < s → (generate_sequence b n s).Pairwise (· < ·)) ∧
    (s = 0 → ∀ x ∈ generate_sequence b n s, x = b) ∧
    (n = 0 → generate_sequence b n s = []) := by
  refine ⟨by unfold generate_sequence
             rw [List.length_map, List.length_map, List.length_range], ?_, ?_, ?_, ?_⟩
  · intro i hi
    unfold generate_sequence
    simp [List.getElem?_map, List.getElem?_range, hi]
  · intro hpos
    unfold generate_sequence
    rw [List.map_map, List.pairwise_map]
    apply (List.pairwise_lt_range n).imp
    intro i j hij
    have hij2 : (i : ℚ) < j := by exact_mod_cast hij
    have := mul_lt_mul_of_pos_right hij2 hpos
    simp only [Function.comp]
    linarith
  · intro hz x hx
    subst hz
    simp only [generate_sequence, List.map_map, List.mem_map, List.mem_range,
      Function.comp, mul_zero, add_zero] at hx
    obtain ⟨i, -, rfl⟩ := hx
    rfl
  · intro hn
    subst hn
    rfl

unseal Rat.add Rat.mul Rat.inv Rat.sub in
/-- Witness for C2 at the spec's example: base `580`, count `10`, step
`1/10`. -/
theorem claim_C2_witness :
    (0 : ℚ) ≤ 1 / 10 ∧
      ((generate_sequence 580 10 (1 / 10)).length = 10 ∧
        (∀ i : ℕ, i < 10 →
          (generate_sequence 580 10 (1 / 10))[i]? =
            some ((580 : ℚ) + (i : ℚ) * (1 / 10))) ∧
        ((0 : ℚ) < 1 / 10 → (generate_sequence 580 10 (1 / 10)).Pairwise (· < ·)) ∧
        ((1 / 10 : ℚ) = 0 →
          ∀ x ∈ generate_sequence 580 10 (1 / 10), x = (580 : ℚ)) ∧
        (10 = 0 → generate_sequence 580 10 (1 / 10) = [])) :=
  ⟨by norm_num, claim_C2 580 (1 / 10) 10 (by norm_num)⟩

/-- C7: `hhmmss_to_seconds` fails, with the error message carrying the
whitespace-stripped offending input, exactly when the stripped input matches
none of the five accepted forms; it succeeds exactly when some form matches
the whole string. -/
theorem claim_C7 (ts : String) :
    (hhmmss_to_seconds ts =
        .error ("Unrecognized timestamp format: " ++ String.mk (pyStrip ts.toList)) ↔
      (tsHms (pyStrip ts.toList) = none ∧ tsMs (pyStrip ts.toList) = none ∧
        tsSuff (pyStrip ts.toList) = none ∧ tsPlain (pyStrip ts.toList) = none ∧
        tsDotMs (pyStrip ts.toList) = none)) ∧
    ((∃ v, hhmmss_to_seconds ts = .ok v) ↔
      ¬(tsHms (pyStrip ts.toList) = none ∧ tsMs (pyStrip ts.toList) = none ∧
        tsSuff (pyStrip ts.toList) = none ∧ tsPlain (pyStrip ts.toList) = none ∧
        tsDotMs (pyStrip ts.toList) = none)) := by
  rcases h1 : tsHms (pyStrip ts.toList) with _ | v1
  · rcases h2 : tsMs (pyStrip ts.toList) with _ | v2
    · rcases h3 : tsSuff (pyStrip ts.toList) with _ | v3
      · rcases h4 : tsPlain (pyStrip ts.toList) with _ | v4
        · rcases h5 : tsDotMs (pyStrip ts.toList) with _ | v5
          · exact ⟨by simp only [hhmmss_eq_def, h1, h2, h3, h4, h5]; simp,
              by simp only [hhmmss_eq_def, h1, h2, h3, h4, h5]; simp⟩
          · exact ⟨by simp only [hhmmss_eq_def, h1, h2, h3, h4, h5]; simp,
              by simp only [hhmmss_eq_def, h1, h2, h3, h4, h5]; simp⟩
        · exact ⟨by simp only [hhmmss_eq_def, h1, h2, h3, h4]; simp,
            by simp only [hhmmss_eq_def, h1, h2, h3, h4]; simp⟩
      · exact ⟨by simp only [hhmmss_eq_def, h1, h2, h3]; simp,
          by simp only [hhmmss_eq_def, h1, h2, h3]; simp⟩
    · exact ⟨by simp only [hhmmss_eq_def, h1, h2]; simp, by simp only [hhmmss_eq_def, h1, h2]; simp⟩
  · exact ⟨by simp only [hhmmss_eq_def, h1]; simp, by simp only [hhmmss_eq_def, h1]; simp⟩

/-- Witness for C7: `"not a time"` matches no form and fails with the error
carrying the stripped input; `"3:00"` matches a form and succeeds. -/
theorem claim_C7_witness :
    (hhmmss_to_seconds "not a time" =
      .error ("Unrecognized timestamp format: " ++
        String.mk (pyStrip "not a time".toList))) ∧
    (∃ v, hhmmss_to_seconds "3:00" = .ok v) :=
  ⟨(claim_C7 "not a time").1.mpr (by decide), (claim_C7 "3:00").2.mpr (by decide)⟩

/-- C4 (amended): a supplied NON-EMPTY start timestamp always wins — the base
is its parse result and the URL-embedded time is not consulted; with no start
(or, per the counterexample, an empty-string start) a URL-embedded time is the
base when present, and otherwise the base is 0. -/
theorem claim_C4_amended (url : String) :
    (∀ s : String, s ≠ "" → resolve_base (some s) url = hhmmss_to_seconds s) ∧
    (∀ v : ℚ, extract_t_from_url url = some v → resolve_base none url = .ok v) ∧
    (extract_t_from_url url = none → resolve_base none url = .ok 0) := by
  refine ⟨?_, ?_, ?_⟩
  · intro s hs
    simp [resolve_base, hs]
  · intro v hv
    simp [resolve_base, hv]
  · intro hv
    simp [resolve_base, hv]

unseal Rat.add Rat.mul Rat.inv Rat.sub in
/-- Witness for C4 at a URL that embeds `t=8s`: a non-empty explicit start
wins; with no start the URL time is used. -/
theorem claim_C4_amended_witness :
    ("3:00" : String) ≠ "" ∧
    resolve_base (some "3:00") "https://x/watch?v=1&t=8s" =
      hhmmss_to_seconds "3:00" ∧
    extract_t_from_url "https://x/watch?v=1&t=8s" = some 8 ∧
    resolve_base none "https://x/watch?v=1&t=8s" = .ok 8 :=
  ⟨by decide,
    (claim_C4_amended "https://x/watch?v=1&t=8s").1 "3:00" (by decide),
    by decide,
    (claim_C4_amended "https://x/watch?v=1&t=8s").2.1 8 (by decide)⟩

unseal Rat.add Rat.mul Rat.inv Rat.sub in
/-- Counterexample to C4 as stated: with the explicitly supplied start
timestamp `""` (which Python truthiness treats as absent), the resolved base
is the URL-embedded `8` — the URL time IS used even though a start was
supplied, and the supplied start's parse (an error) is not the base. -/
theorem claim_C4_counterexample :
    resolve_base (some "") "https://x/watch?v=1&t=8s" = .ok 8 ∧
    hhmmss_to_seconds "" = .error "Unrecognized timestamp format: " := by
  exact ⟨by decide, by decide⟩

unseal Rat.add Rat.mul Rat.inv Rat.sub in
/-- C8: `extract_t_from_url` is a total function that signals absence (never
an error): when no `t`/`start` value exists it returns `none`; when the first
value matches neither the minutes/seconds pattern nor `float()` it also
returns `none`; and on the spec's three examples it returns `8.0`, absent,
and absent. -/
theorem claim_C8 :
    (∀ url : String, tOrStart (qsPairs (urlQuery url.toList)) = [] →
      extract_t_from_url url = none) ∧
    (∀ (url : String) (raw : List Char) (rest : List (List Char)),
      tOrStart (qsPairs (urlQuery url.toList)) = raw :: rest →
      urlTimeParse raw = none → pyFloat raw = none →
      extract_t_from_url url = none) ∧
    extract_t_from_url "https://x/watch?v=1&t=8s" = some 8 ∧
    extract_t_from_url "https://x/watch?v=1" = none ∧
    extract_t_from_url "not a url" = none := by
  refine ⟨?_, ?_, by decide, by decide, by decide⟩
  · intro url h
    unfold extract_t_from_url
    rw [h]
  · intro url raw rest h h1 h2
    unfold extract_t_from_url
    rw [h]
    simp [h1, h2]

/-- Witness for C8: a non-URL has no `t`/`start` value and yields absent; a
URL with the malformed value `t=abc` also yields absent. -/
theorem claim_C8_witness :
    tOrStart (qsPairs (urlQuery "nope".toList)) = [] ∧
    extract_t_from_url "nope" = none ∧
    tOrStart (qsPairs (urlQuery "https://x/watch?t=abc".toList)) =
      [['a', 'b', 'c']] ∧
    urlTimeParse ['a', 'b', 'c'] = none ∧
    pyFloat ['a', 'b', 'c'] = none ∧
    extract_t_from_url "https://x/watch?t=abc" = none :=
  ⟨by decide, claim_C8.1 "nope" (by decide), by decide, by decide, by decide,
    claim_C8.2.1 "https://x/watch?t=abc" ['a', 'b', 'c'] [] (by decide)
      (by decide) (by decide)⟩

lemma decVal_nonneg (d f : List Char) : 0 ≤ decVal d f := by
  unfold decVal
  positivity

lemma decSpan_nonneg {l : List Char} {v : ℚ} {r : List Char}
    (h : decSpan l = some (v, r)) : 0 ≤ v := by
  obtain ⟨d, f, -, -, -, -, hc⟩ := decSpan_eq_some h
  rcases hc with ⟨-, -, rfl⟩ | ⟨-, -, rfl⟩
  · positivity
  · exact decVal_nonneg d f

lemma orElse_eq_some {a b : Option ℚ} {x : ℚ} (h : (a <|> b) = some x) :
    a = some x ∨ b = some x := by
  cases a <;> simp_all

lemma tsHms_nonneg {l : List Char} {v : ℚ} (h : tsHms l = some v) : 0 ≤ v := by
  unfold tsHms at h
  simp only at h
  split_ifs at h
  split at h
  case _ =>
    split_ifs at h
    split at h
    case _ =>
      split_ifs at h
      split at h
      case _ =>
        obtain rfl := Option.some_inj.mp h
        positivity
      case _ =>
        split_ifs at h
        obtain rfl := Option.some_inj.mp h
        unfold decVal
        positivity
      case _ => exact absurd h (by simp)
    case _ =>
      obtain rfl := Option.some_inj.mp h
      positivity
    case _ =>
      split_ifs at h
      obtain rfl := Option.some_inj.mp h
      unfold decVal
      positivity
    case _ => exact absurd h (by simp)
  case _ => exact absurd h (by simp)

lemma msTail_nonneg {m : ℕ} {l : List Char} {v : ℚ} (h : msTail m l = some v) :
    0 ≤ v := by
  unfold msTail at h
  split at h
  case _ => exact absurd h (by simp)
  case _ s r hds =>
    split at h
    case _ =>
      split_ifs at h
      obtain rfl := Option.some_inj.mp h
      have h1 := decSpan_nonneg hds
      have h2 : (0 : ℚ) ≤ (m : ℚ) * 60 := by positivity
      linarith
    case _ => exact absurd h (by simp)

lemma tsMs_nonneg {l : List Char} {v : ℚ} (h : tsMs l = some v) : 0 ≤ v := by
  unfold tsMs at h
  simp only at h
  split_ifs at h
  split at h
  case _ =>
    split_ifs at h
    rcases orElse_eq_some h with h | h
    · split at h
      case _ =>
        split_ifs at h
        exact msTail_nonneg h
      case _ => exact absurd h (by simp)
    · exact msTail_nonneg h
  case _ => exact absurd h (by simp)

lemma tsSuff_nonneg {l : List Char} {v : ℚ} (h : tsSuff l = some v) : 0 ≤ v := by
  unfold tsSuff at h
  split at h
  case _ => exact absurd h (by simp)
  case _ s r hds =>
    split at h
    case _ =>
      split_ifs at h
      obtain rfl := Option.some_inj.mp h
      exact decSpan_nonneg hds
    case _ => exact absurd h (by simp)

lemma tsPlain_nonneg {l : List Char} {v : ℚ} (h : tsPlain l = some v) : 0 ≤ v := by
  unfold tsPlain at h
  split at h
  case _ => exact absurd h (by simp)
  case _ s r hds =>
    split_ifs at h
    obtain rfl := Option.some_inj.mp h
    exact decSpan_nonneg hds

lemma tsDotMs_nonneg {l : List Char} {v : ℚ} (h : tsDotMs l = some v) : 0 ≤ v := by
  unfold tsDotMs at h
  simp only at h
  split_ifs at h
  split at h
  case _ =>
    split_ifs at h
    obtain rfl := Option.some_inj.mp h
    positivity
  case _ => exact absurd h (by simp)

lemma urlTimeTail_nonneg {m : ℕ} {l : List Char} {v : ℚ}
    (h : urlTimeTail m l = some v) : 0 ≤ v := by
  unfold urlTimeTail at h
  split at h
  case _ => exact absurd h (by simp)
  case _ s r hds =>
    have h1 := decSpan_nonneg hds
    have h2 : (0 : ℚ) ≤ (m : ℚ) * 60 := by positivity
    split at h
    case _ =>
      obtain rfl := Option.some_inj.mp h
      linarith
    case _ =>
      split_ifs at h
      obtain rfl := Option.some_inj.mp h
      linarith
    case _ => exact absurd h (by simp)

lemma urlTimeParse_nonneg {raw : List Char} {v : ℚ}
    (h : urlTimeParse raw = some v) : 0 ≤ v := by
  unfold urlTimeParse at h
  simp only at h
  rcases orElse_eq_some h with h | h
  · split_ifs at h
    split at h
    case _ =>
      split_ifs at h
      exact urlTimeTail_nonneg h
    case _ => exact absurd h (by simp)
  · exact urlTimeTail_nonneg h

/-- C6 (amended): every non-error result of `hhmmss_to_seconds` is ≥ 0 (and
finite — the model's rationals are exact), and every value the URL extractor
obtains through its minutes/seconds pattern is ≥ 0.  The extractor's bare
`float()` fallback is exempt: it can return a negative value (see the
counterexample at `t=-5`). -/
theorem claim_C6_amended :
    (∀ (ts : String) (v : ℚ), hhmmss_to_seconds ts = .ok v → 0 ≤ v) ∧
    (∀ (raw : List Char) (v : ℚ), urlTimeParse raw = some v → 0 ≤ v) := by
  refine ⟨?_, fun raw v h => urlTimeParse_nonneg h⟩
  intro ts v h
  rw [hhmmss_eq_def] at h
  rcases h1 : tsHms (pyStrip ts.toList) with _ | v1
  case _ =>
    rw [h1] at h
    simp only at h
    rcases h2 : tsMs (pyStrip ts.toList) with _ | v2
    case _ =>
      rw [h2] at h
      simp only at h
      rcases h3 : tsSuff (pyStrip ts.toList) with _ | v3
      case _ =>
        rw [h3] at h
        simp only at h
        rcases h4 : tsPlain (pyStrip ts.toList) with _ | v4
        case _ =>
          rw [h4] at h
          simp only at h
          rcases h5 : tsDotMs (pyStrip ts.toList) with _ | v5
          case _ =>
            rw [h5] at h
            simp at h
          case _ =>
            rw [h5] at h
            simp only [Except.ok.injEq] at h
            exact h ▸ tsDotMs_nonneg h5
        case _ =>
          rw [h4] at h
          simp only [Except.ok.injEq] at h
          exact h ▸ tsPlain_nonneg h4
      case _ =>
        rw [h3] at h
        simp only [Except.ok.injEq] at h
        exact h ▸ tsSuff_nonneg h3
    case _ =>
      rw [h2] at h
      simp only [Except.ok.injEq] at h
      exact h ▸ tsMs_nonneg h2
  case _ =>
    rw [h1] at h
    simp only [Except.ok.injEq] at h
    exact h ▸ tsHms_nonneg h1

unseal Rat.add Rat.mul Rat.inv Rat.sub in
/-- Witness for C6 (amended): the parse of `"3:00"` and the regex-branch
extraction of `"8s"` are both non-negative. -/
theorem claim_C6_amended_witness :
    hhmmss_to_seconds "3:00" = .ok 180 ∧ (0 : ℚ) ≤ 180 ∧
      urlTimeParse ['8', 's'] = some 8 ∧ (0 : ℚ) ≤ 8 :=
  ⟨by decide, claim_C6_amended.1 "3:00" 180 (by decide), by decide,
    claim_C6_amended.2 ['8', 's'] 8 (by decide)⟩

unseal Rat.add Rat.mul Rat.inv Rat.sub in
/-- Counterexample to C6 as stated: the URL `t` parameter `-5` misses the
minutes/seconds pattern and reaches the `float()` fallback, so
`extract_t_from_url` returns the NEGATIVE canonical time `-5`. -/
theorem claim_C6_counterexample :
    extract_t_from_url "https://x/watch?v=1&t=-5" = some (-5) ∧
      ¬(0 ≤ (-5 : ℚ)) :=
  ⟨by decide, by decide⟩

lemma nondigit_head_cons (c : Char) (hc : c.isDigit = false) (t : List Char) :
    ∀ x : Char, (c :: t).head? = some x → x.isDigit = false := by
  intro x hx
  simp only [List.head?_cons, Option.some_inj] at hx
  rw [← hx]
  exact hc

lemma decVal_nil_frac (sd : List Char) : decVal sd [] = (digitsToNat sd : ℚ) := by
  unfold decVal digitsToNat
  norm_num

lemma tsHms_eval_tail (sd f : List Char)
    (h3 : sd ≠ []) (h3l : sd.length ≤ 2) (h3d : ∀ c ∈ sd, c.isDigit = true)
    (hf : f = [] ∨ (f ≠ [] ∧ ∀ c ∈ f, c.isDigit = true)) :
    digitSpan (sd ++ (if f.isEmpty then [] else '.' :: f)) =
      (sd, if f.isEmpty then [] else '.' :: f) := by
  rcases hf with rfl | ⟨hf0, hfd⟩
  · simpa using digitSpan_all sd h3d
  · rw [if_neg (by simpa [List.isEmpty_iff] using hf0)]
    exact digitSpan_append sd ('.' :: f) h3d (nondigit_head_cons '.' (by decide) f)

lemma tsHms_eval3 (hd md sd f : List Char)
    (h1 : hd ≠ []) (h1l : hd.length ≤ 2) (h1d : ∀ c ∈ hd, c.isDigit = true)
    (h2 : md ≠ []) (h2l : md.length ≤ 2) (h2d : ∀ c ∈ md, c.isDigit = true)
    (h3 : sd ≠ []) (h3l : sd.length ≤ 2) (h3d : ∀ c ∈ sd, c.isDigit = true)
    (hf : f = [] ∨ (f ≠ [] ∧ ∀ c ∈ f, c.isDigit = true)) :
    tsHms (hd ++ ':' :: (md ++ ':' :: (sd ++ (if f.isEmpty then [] else '.' :: f)))) =
      some ((digitsToNat hd : ℚ) * 3600 + (digitsToNat md : ℚ) * 60 + decVal sd f) := by
  unfold tsHms
  rw [digitSpan_append hd
    (':' :: (md ++ ':' :: (sd ++ (if f.isEmpty then [] else '.' :: f)))) h1d
    (nondigit_head_cons ':' (by decide) _)]
  simp only
  rw [if_neg (by simp only [List.isEmpty_eq_false.mpr h1, Bool.false_or,
    decide_eq_true_eq]; omega)]
  rw [digitSpan_append md
    (':' :: (sd ++ (if f.isEmpty then [] else '.' :: f))) h2d
    (nondigit_head_cons ':' (by decide) _)]
  simp only
  rw [if_neg (by simp only [List.isEmpty_eq_false.mpr h2, Bool.false_or,
    decide_eq_true_eq]; omega)]
  rw [tsHms_eval_tail sd f h3 h3l h3d hf]
  simp only
  rw [if_neg (by simp only [List.isEmpty_eq_false.mpr h3, Bool.false_or,
    decide_eq_true_eq]; omega)]
  rcases hf with rfl | ⟨hf0, hfd⟩
  · simp only [List.isEmpty_nil, if_pos]
    rw [decVal_nil_frac]
  · rw [if_neg (by simpa [List.isEmpty_iff] using hf0)]
    simp only
    rw [digitSpan_all f hfd]
    simp only
    rw [if_neg (by simp [List.isEmpty_eq_false.mpr hf0])]

lemma tsHms_eval2 (md sd f : List Char)
    (h2 : md ≠ []) (h2l : md.length ≤ 2) (h2d : ∀ c ∈ md, c.isDigit = true)
    (h3 : sd ≠ []) (h3l : sd.length ≤ 2) (h3d : ∀ c ∈ sd, c.isDigit = true)
    (hf : f = [] ∨ (f ≠ [] ∧ ∀ c ∈ f, c.isDigit = true)) :
    tsHms (md ++ ':' :: (sd ++ (if f.isEmpty then [] else '.' :: f))) =
      some ((digitsToNat md : ℚ) * 60 + decVal sd f) := by
  unfold tsHms
  rw [digitSpan_append md
    (':' :: (sd ++ (if f.isEmpty then [] else '.' :: f))) h2d
    (nondigit_head_cons ':' (by decide) _)]
  simp only
  rw [if_neg (by simp only [List.isEmpty_eq_false.mpr h2, Bool.false_or,
    decide_eq_true_eq]; omega)]
  rw [tsHms_eval_tail sd f h3 h3l h3d hf]
  simp only
  rw [if_neg (by simp only [List.isEmpty_eq_false.mpr h3, Bool.false_or,
    decide_eq_true_eq]; omega)]
  rcases hf with rfl | ⟨hf0, hfd⟩
  · simp only [List.isEmpty_nil, if_pos]
    rw [decVal_nil_frac]
  · rw [if_neg (by simpa [List.isEmpty_iff] using hf0)]
    simp only
    rw [digitSpan_all f hfd]
    simp only
    rw [if_neg (by simp [List.isEmpty_eq_false.mpr hf0])]

lemma hhmmss_mk_of_tsHms {L : List Char} {v : ℚ}
    (hns : ∀ c ∈ L, pySpace c = false) (h : tsHms L = some v) :
    hhmmss_to_seconds (String.mk L) = .ok v := by
  rw [hhmmss_eq_def]
  have ht : (String.mk L).toList = L := rfl
  rw [ht, pyStrip_eq_self hns, h]

lemma clock_nonspace (hd md sd f : List Char)
    (h1d : ∀ c ∈ hd, c.isDigit = true) (h2d : ∀ c ∈ md, c.isDigit = true)
    (h3d : ∀ c ∈ sd, c.isDigit = true) (hfd : ∀ c ∈ f, c.isDigit = true) :
    ∀ c ∈ hd ++ ':' :: (md ++ ':' :: (sd ++ (if f.isEmpty then [] else '.' :: f))),
      pySpace c = false := by
  intro c hc
  have hor : c.isDigit = true ∨ c = ':' ∨ c = '.' := by
    rcases List.mem_append.mp hc with h | h
    · exact Or.inl (h1d c h)
    · rcases List.mem_cons.mp h with rfl | h
      · exact Or.inr (Or.inl rfl)
      · rcases List.mem_append.mp h with h | h
        · exact Or.inl (h2d c h)
        · rcases List.mem_cons.mp h with rfl | h
          · exact Or.inr (Or.inl rfl)
          · rcases List.mem_append.mp h with h | h
            · exact Or.inl (h3d c h)
            · by_cases hfe : f.isEmpty
              · rw [if_pos hfe] at h
                simp at h
              · rw [if_neg hfe] at h
                rcases List.mem_cons.mp h with rfl | h
                · exact Or.inr (Or.inr rfl)
                · exact Or.inl (hfd c h)
  rcases hor with h | rfl | rfl
  · exact isDigit_not_pySpace h
  · decide
  · decide

lemma clock_nonspace2 (md sd f : List Char)
    (h2d : ∀ c ∈ md, c.isDigit = true) (h3d : ∀ c ∈ sd, c.isDigit = true)
    (hfd : ∀ c ∈ f, c.isDigit = true) :
    ∀ c ∈ md ++ ':' :: (sd ++ (if f.isEmpty then [] else '.' :: f)),
      pySpace c = false := by
  intro c hc
  rcases List.mem_append.mp hc with h | h
  · exact isDigit_not_pySpace (h2d c h)
  · rcases List.mem_cons.mp h with rfl | h
    · decide
    · rcases List.mem_append.mp h with h | h
      · exact isDigit_not_pySpace (h3d c h)
      · by_cases hfe : f.isEmpty
        · rw [if_pos hfe] at h
          simp at h
        · rw [if_neg hfe] at h
          rcases List.mem_cons.mp h with rfl | h
          · decide
          · exact isDigit_not_pySpace (hfd c h)

/-- C3: every valid clock-form string — 2 or 3 colon-separated numeric fields
of 1–2 digits, hours optional (defaulting to 0), seconds optionally carrying
a fractional part — parses to `H*3600 + M*60 + S`.  The model computes the
value exactly (the rationals are exact), which subsumes the claim's 1e-6
tolerance. -/
theorem claim_C3 (hd md sd f : List Char)
    (h1 : hd ≠ []) (h1l : hd.length ≤ 2) (h1d : ∀ c ∈ hd, c.isDigit = true)
    (h2 : md ≠ []) (h2l : md.length ≤ 2) (h2d : ∀ c ∈ md, c.isDigit = true)
    (h3 : sd ≠ []) (h3l : sd.length ≤ 2) (h3d : ∀ c ∈ sd, c.isDigit = true)
    (hf : f = [] ∨ (f ≠ [] ∧ ∀ c ∈ f, c.isDigit = true)) :
    hhmmss_to_seconds (String.mk (hd ++ ':' :: (md ++ ':' ::
        (sd ++ (if f.isEmpty then [] else '.' :: f))))) =
      .ok ((digitsToNat hd : ℚ) * 3600 + (digitsToNat md : ℚ) * 60 +
        decVal sd f) ∧
    hhmmss_to_seconds (String.mk (md ++ ':' ::
        (sd ++ (if f.isEmpty then [] else '.' :: f)))) =
      .ok ((digitsToNat md : ℚ) * 60 + decVal sd f) := by
  have hfd : ∀ c ∈ f, c.isDigit = true := by
    rcases hf with rfl | ⟨-, hfd⟩
    · simp
    · exact hfd
  exact ⟨hhmmss_mk_of_tsHms (clock_nonspace hd md sd f h1d h2d h3d hfd)
      (tsHms_eval3 hd md sd f h1 h1l h1d h2 h2l h2d h3 h3l h3d hf),
    hhmmss_mk_of_tsHms (clock_nonspace2 md sd f h2d h3d hfd)
      (tsHms_eval2 md sd f h2 h2l h2d h3 h3l h3d hf)⟩

unseal Rat.add Rat.mul Rat.inv Rat.sub in
/-- Witness for C3 at the spec's examples: the three-field string
`"00:03:00"` and the two-field string `"3:00.5"` (with a fractional seconds
part), whose values are `180` and `180.5`. -/
theorem claim_C3_witness :
    String.mk (['0', '0'] ++ ':' :: (['0', '3'] ++ ':' ::
        (['0', '0'] ++ (if ([] : List Char).isEmpty then [] else '.' :: [])))) =
      "00:03:00" ∧
    hhmmss_to_seconds (String.mk (['0', '0'] ++ ':' :: (['0', '3'] ++ ':' ::
        (['0', '0'] ++ (if ([] : List Char).isEmpty then [] else '.' :: []))))) =
      .ok ((digitsToNat ['0', '0'] : ℚ) * 3600 + (digitsToNat ['0', '3'] : ℚ) * 60 +
        decVal ['0', '0'] []) ∧
    (digitsToNat ['0', '0'] : ℚ) * 3600 + (digitsToNat ['0', '3'] : ℚ) * 60 +
        decVal ['0', '0'] [] = 180 ∧
    String.mk (['3'] ++ ':' :: (['0', '0'] ++
        (if ['5'].isEmpty then [] else '.' :: ['5']))) = "3:00.5" ∧
    hhmmss_to_seconds (String.mk (['3'] ++ ':' :: (['0', '0'] ++
        (if ['5'].isEmpty then [] else '.' :: ['5'])))) =
      .ok ((digitsToNat ['3'] : ℚ) * 60 + decVal ['0', '0'] ['5']) ∧
    (digitsToNat ['3'] : ℚ) * 60 + decVal ['0', '0'] ['5'] = 361 / 2 :=
  ⟨by decide,
    (claim_C3 ['0', '0'] ['0', '3'] ['0', '0'] [] (by decide) (by decide)
      (by decide) (by decide) (by decide) (by decide) (by decide) (by decide)
      (by decide) (Or.inl rfl)).1,
    by decide,
    by decide,
    (claim_C3 ['9'] ['3'] ['0', '0'] ['5'] (by decide) (by decide) (by decide)
      (by decide) (by decide) (by decide) (by decide) (by decide) (by decide)
      (Or.inr ⟨by decide, by decide⟩)).2,
    by decide⟩

unseal Rat.add Rat.mul Rat.inv Rat.sub in
/-- C10: the clock form performs no range validation: any 2- or 3-field
colon-separated string with 1–2 digit fields is accepted even when the
minute or second fields are 60 or more, and the value is still
`H*3600 + M*60 + S`; in particular `"0:99"` parses to `99` and `"00:99:99"`
to `99*60 + 99`. -/
theorem claim_C10 (md sd : List Char)
    (h2 : md ≠ []) (h2l : md.length ≤ 2) (h2d : ∀ c ∈ md, c.isDigit = true)
    (h3 : sd ≠ []) (h3l : sd.length ≤ 2) (h3d : ∀ c ∈ sd, c.isDigit = true) :
    hhmmss_to_seconds (String.mk (md ++ ':' :: sd)) =
      .ok ((digitsToNat md : ℚ) * 60 + (digitsToNat sd : ℚ)) ∧
    hhmmss_to_seconds "0:99" = .ok 99 ∧
    hhmmss_to_seconds "00:99:99" = .ok (99 * 60 + 99) := by
  refine ⟨?_, by decide, by decide⟩
  have h := tsHms_eval2 md sd [] h2 h2l h2d h3 h3l h3d (Or.inl rfl)
  rw [show (if ([] : List Char).isEmpty then ([] : List Char) else '.' :: []) =
      [] from rfl, List.append_nil, decVal_nil_frac] at h
  have hns : ∀ c ∈ md ++ ':' :: sd, pySpace c = false := by
    have h0 := clock_nonspace2 md sd [] h2d h3d (by simp)
    simpa using h0
  exact hhmmss_mk_of_tsHms hns h

unseal Rat.add Rat.mul Rat.inv Rat.sub in
/-- Witness for C10 at `"0:99"` built from its digit fields: the seconds
field `99` is not below `60` yet the string is accepted with value `99`. -/
theorem claim_C10_witness :
    String.mk (['0'] ++ ':' :: ['9', '9']) = "0:99" ∧
    hhmmss_to_seconds (String.mk (['0'] ++ ':' :: ['9', '9'])) =
      .ok ((digitsToNat ['0'] : ℚ) * 60 + (digitsToNat ['9', '9'] : ℚ)) ∧
    (digitsToNat ['0'] : ℚ) * 60 + (digitsToNat ['9', '9'] : ℚ) = 99 ∧
    digitsToNat ['9', '9'] = 99 ∧ ¬(digitsToNat ['9', '9'] < 60) :=
  ⟨by decide,
    (claim_C10 ['0'] ['9', '9'] (by decide) (by decide) (by decide) (by decide)
      (by decide) (by decide)).1,
    by decide, by decide, by decide⟩

lemma render_decomp (t : ℚ) (ht : 0 ≤ t) :
    ∃ W mil : ℕ,
      ⌊t⌋ = (W : ℤ) ∧
      |(mil : ℚ) - Int.fract t * 1000| ≤ 1 / 2 ∧
      mil ≤ 1000 ∧
      seconds_to_hhmmss_ms t = String.mk (rstripChar '.' (rstripChar '0'
        (intPad 2 ((W / 3600 : ℕ) : ℤ) ++
          ':' :: intPad 2 ((W % 3600 / 60 : ℕ) : ℤ) ++
          ':' :: intPad 2 (((W % 60 * 1000 + mil) / 1000 : ℕ) : ℤ) ++
          '.' :: intPad 3 (((W % 60 * 1000 + mil) % 1000 : ℕ) : ℤ)))) := by
  have hW0 : 0 ≤ ⌊t⌋ := Int.floor_nonneg.mpr ht
  set W : ℕ := (⌊t⌋).toNat with hWdef
  have hW : ⌊t⌋ = (W : ℤ) := (Int.toNat_of_nonneg hW0).symm
  have hfr0 : 0 ≤ Int.fract t := Int.fract_nonneg t
  have hfr1 : Int.fract t < 1 := Int.fract_lt_one t
  have hM0 : 0 ≤ ⌊Int.fract t * 1000 + 1 / 2⌋ := by
    apply Int.floor_nonneg.mpr
    nlinarith
  set mil : ℕ := (⌊Int.fract t * 1000 + 1 / 2⌋).toNat with hmildef
  have hM : ⌊Int.fract t * 1000 + 1 / 2⌋ = (mil : ℤ) :=
    (Int.toNat_of_nonneg hM0).symm
  refine ⟨W, mil, hW, ?_, ?_, ?_⟩
  · have hle : ((mil : ℚ) : ℚ) ≤ Int.fract t * 1000 + 1 / 2 := by
      have := Int.floor_le (Int.fract t * 1000 + 1 / 2)
      rw [hM] at this
      exact_mod_cast this
    have hgt : Int.fract t * 1000 + 1 / 2 - 1 < (mil : ℚ) := by
      have := Int.sub_one_lt_floor (Int.fract t * 1000 + 1 / 2)
      rw [hM] at this
      exact_mod_cast this
    rw [abs_le]
    constructor <;> linarith
  · have hlt : ⌊Int.fract t * 1000 + 1 / 2⌋ < 1001 := by
      apply Int.floor_lt.mpr
      push_cast
      nlinarith
    rw [hM] at hlt
    have : mil < 1001 := by exact_mod_cast hlt
    omega
  · have hfract : t - ((W : ℤ) : ℚ) = Int.fract t := by
      rw [← hW]
      rfl
    have hfloorSM :
        ⌊(((Int.fmod ⌊t⌋ 60 : ℤ) : ℚ) + (t - (⌊t⌋ : ℚ))) * 1000 + 1 / 2⌋ =
          ((W % 60 * 1000 + mil : ℕ) : ℤ) := by
      rw [hW]
      rw [show Int.fmod (W : ℤ) 60 = ((W % 60 : ℕ) : ℤ) from
        (Int.ofNat_fmod W 60).symm]
      have harith : (((W % 60 : ℕ) : ℤ) : ℚ) + (t - ((W : ℤ) : ℚ)) =
          (((W % 60 * 1000 : ℕ) : ℤ) : ℚ) / 1000 + Int.fract t := by
        rw [hfract]
        push_cast
        ring
      rw [harith]
      have harith2 : ((((W % 60 * 1000 : ℕ) : ℤ) : ℚ) / 1000 + Int.fract t) *
          1000 + 1 / 2 =
          (((W % 60 * 1000 : ℕ) : ℤ) : ℚ) + (Int.fract t * 1000 + 1 / 2) := by
        ring
      rw [harith2, Int.floor_int_add, hM]
      push_cast
      ring
    simp only [seconds_to_hhmmss_ms]
    rw [hfloorSM]
    rw [hW]
    rw [show Int.fdiv (W : ℤ) 3600 = ((W / 3600 : ℕ) : ℤ) from
      (Int.ofNat_fdiv W 3600).symm]
    rw [show Int.fmod (W : ℤ) 3600 = ((W % 3600 : ℕ) : ℤ) from
      (Int.ofNat_fmod W 3600).symm]
    rw [show Int.fdiv ((W % 3600 : ℕ) : ℤ) 60 = ((W % 3600 / 60 : ℕ) : ℤ) from
      (Int.ofNat_fdiv (W % 3600) 60).symm]
    rw [show Int.fdiv ((W % 60 * 1000 + mil : ℕ) : ℤ) 1000 =
        (((W % 60 * 1000 + mil) / 1000 : ℕ) : ℤ) from
      (Int.ofNat_fdiv (W % 60 * 1000 + mil) 1000).symm]
    rw [show Int.fmod ((W % 60 * 1000 + mil : ℕ) : ℤ) 1000 =
        (((W % 60 * 1000 + mil) % 1000 : ℕ) : ℤ) from
      (Int.ofNat_fmod (W % 60 * 1000 + mil) 1000).symm]

lemma dropWhile_append_pos (p : Char → Bool) (xs ys : List Char)
    (h : xs.dropWhile p ≠ []) :
    (xs ++ ys).dropWhile p = xs.dropWhile p ++ ys := by
  induction xs with
  | nil => simp at h
  | cons c t ih =>
    by_cases hp : p c
    · rw [List.cons_append, List.dropWhile_cons_of_pos hp,
        List.dropWhile_cons_of_pos hp]
      exact ih (by rwa [List.dropWhile_cons_of_pos hp] at h)
    · rw [List.cons_append, List.dropWhile_cons_of_neg hp,
        List.dropWhile_cons_of_neg hp]
      rfl

lemma digitsToNat_replicate_zero (k : ℕ) :
    digitsToNat (List.replicate k '0') = 0 := by
  have := digitsToNat_append_zeros [] k
  simpa [digitsToNat] using this

lemma rstripChar_reverse_eq (c : Char) (B : List Char) :
    rstripChar c B = (B.reverse.dropWhile (fun d => d = c)).reverse := rfl

lemma rstrip_zero_split (B : List Char) :
    B = rstripChar '0' B ++
      List.replicate (B.reverse.takeWhile (fun d => d = '0')).length '0' := by
  conv_lhs => rw [← List.reverse_reverse B,
    ← List.takeWhile_append_dropWhile (fun d => d = '0') B.reverse]
  rw [List.reverse_append, rstripChar_reverse_eq]
  congr 1
  apply List.eq_replicate_iff.mpr
  refine ⟨by simp, ?_⟩
  intro b hb
  rw [List.mem_reverse] at hb
  exact of_decide_eq_true (takeWhile_all _ _ b hb)

lemma rstrip_zero_ne_nil {B : List Char} (h : digitsToNat B ≠ 0) :
    rstripChar '0' B ≠ [] := by
  intro hc
  rw [rstripChar_reverse_eq] at hc
  rw [List.reverse_eq_nil_iff] at hc
  have hall : ∀ x ∈ B.reverse, x = '0' := fun x hx =>
    of_decide_eq_true (List.dropWhile_eq_nil_iff.mp hc x hx)
  have hrep : B = List.replicate B.length '0' :=
    List.eq_replicate_iff.mpr ⟨rfl, fun b hb => hall b (List.mem_reverse.mpr hb)⟩
  exact h (by rw [hrep]; exact digitsToNat_replicate_zero _)

lemma rstrip_zero_mem {B : List Char} {x : Char} (h : x ∈ rstripChar '0' B) :
    x ∈ B := by
  rw [rstripChar_reverse_eq, List.mem_reverse] at h
  exact List.mem_reverse.mp ((List.dropWhile_sublist _).mem h)

lemma rstrip_zero_getLast {B : List Char} :
    ∀ x, (rstripChar '0' B).getLast? = some x → (x = '0') = False := by
  intro x hx
  rw [rstripChar_reverse_eq, List.getLast?_reverse] at hx
  have := head_dropWhile_false (fun d => d = '0') B.reverse x hx
  simpa using this

lemma rstrip_dot_zero (A : List Char)
    (hAlast : ∀ x, A.getLast? = some x → x.isDigit = true) :
    rstripChar '.' (rstripChar '0' (A ++ '.' :: ['0', '0', '0'])) = A := by
  have h1 : rstripChar '0' (A ++ '.' :: ['0', '0', '0']) = A ++ ['.'] := by
    rw [rstripChar_reverse_eq, List.reverse_append]
    rw [show ('.' :: ['0', '0', '0']).reverse ++ A.reverse =
      '0' :: '0' :: '0' :: '.' :: A.reverse from rfl]
    rw [List.dropWhile_cons_of_pos (by decide),
      List.dropWhile_cons_of_pos (by decide),
      List.dropWhile_cons_of_pos (by decide),
      List.dropWhile_cons_of_neg (by decide)]
    rw [show ('.' :: A.reverse).reverse = A.reverse.reverse ++ ['.'] from by
      simp]
    rw [List.reverse_reverse]
  rw [h1, rstripChar_reverse_eq, List.reverse_append]
  rw [show (['.'] : List Char).reverse ++ A.reverse = '.' :: A.reverse from rfl]
  rw [List.dropWhile_cons_of_pos (by decide)]
  cases hA : A.reverse with
  | nil =>
    have hAnil : A = [] := by simpa [List.reverse_eq_nil_iff] using hA
    simp [hAnil]
  | cons x r =>
    have hx : A.getLast? = some x := by
      rw [← List.head?_reverse, hA]
      rfl
    have hdig := hAlast x hx
    have hne : ¬(decide (x = '.') = true) := by
      simp only [decide_eq_true_eq]
      intro hx2
      rw [hx2] at hdig
      exact absurd hdig (by decide)
    rw [List.dropWhile_cons_of_neg (p := fun d => decide (d = '.')) hne, ← hA,
      List.reverse_reverse]

lemma rstripChar_eq_self (c : Char) (l : List Char)
    (h : ∀ y, l.reverse.head? = some y → y ≠ c) :
    rstripChar c l = l := by
  rw [rstripChar_reverse_eq,
    dropWhile_eq_self_of _ _ (fun y hy => decide_eq_false (h y hy)),
    List.reverse_reverse]

lemma rstrip_dot_pos (A B : List Char)
    (hBd : ∀ c ∈ B, c.isDigit = true) (hBne : rstripChar '0' B ≠ []) :
    rstripChar '.' (rstripChar '0' (A ++ '.' :: B)) =
      A ++ '.' :: rstripChar '0' B := by
  have hdne : B.reverse.dropWhile (fun d => d = '0') ≠ [] := by
    intro hc
    exact hBne (by rw [rstripChar_reverse_eq, hc]; rfl)
  have h1 : rstripChar '0' (A ++ '.' :: B) = A ++ '.' :: rstripChar '0' B := by
    rw [rstripChar_reverse_eq, List.reverse_append]
    rw [show ('.' :: B).reverse = B.reverse ++ ['.'] from by simp]
    rw [List.append_assoc]
    rw [show (['.'] : List Char) ++ A.reverse = '.' :: A.reverse from rfl]
    rw [dropWhile_append_pos _ _ _ hdne]
    rw [List.reverse_append, List.reverse_cons, List.reverse_reverse,
      rstripChar_reverse_eq, List.append_assoc]
    rfl
  rw [h1]
  apply rstripChar_eq_self
  intro y hy
  rcases hR : (rstripChar '0' B).reverse with _ | ⟨z, r2⟩
  · exact absurd (by simpa [List.reverse_eq_nil_iff] using hR) hBne
  · rw [List.reverse_append, List.reverse_cons, hR] at hy
    rw [show ((z :: r2) ++ ['.']) ++ A.reverse = z :: (r2 ++ ['.'] ++ A.reverse)
      from by simp] at hy
    simp only [List.head?_cons, Option.some_inj] at hy
    have hzB : z ∈ B := by
      apply rstrip_zero_mem (B := B)
      rw [← List.mem_reverse, hR]
      simp
    have hzd := hBd z hzB
    rw [← hy]
    intro hc
    rw [hc] at hzd
    exact absurd hzd (by decide)

lemma pad_tail_getLast (P1 P2 P3 : List Char)
    (h3d : ∀ c ∈ P3, c.isDigit = true) (h3ne : P3 ≠ []) :
    ∀ x, ((P1 ++ ':' :: P2) ++ ':' :: P3).getLast? = some x →
      x.isDigit = true := by
  intro x hx
  rw [List.getLast?_append_of_ne_nil _ (by simp)] at hx
  have hx2 : P3.getLast? = some x := by
    cases hP : P3 with
    | nil => exact absurd hP h3ne
    | cons b t =>
      rw [hP] at hx
      cases t with
      | nil => simpa using hx
      | cons b2 t2 => simpa [List.getLast?_cons_cons] using hx
  exact h3d x (List.mem_of_mem_getLast? hx2)

lemma render_cases (t : ℚ) (ht : 0 ≤ t) :
    ∃ W mil : ℕ,
      ⌊t⌋ = (W : ℤ) ∧
      |(mil : ℚ) - Int.fract t * 1000| ≤ 1 / 2 ∧ mil ≤ 1000 ∧
      ((W % 60 * 1000 + mil) % 1000 = 0 →
        seconds_to_hhmmss_ms t = String.mk
          (intPad 2 ((W / 3600 : ℕ) : ℤ) ++ ':' ::
            intPad 2 ((W % 3600 / 60 : ℕ) : ℤ) ++ ':' ::
            intPad 2 (((W % 60 * 1000 + mil) / 1000 : ℕ) : ℤ))) ∧
      ((W % 60 * 1000 + mil) % 1000 ≠ 0 →
        seconds_to_hhmmss_ms t = String.mk
          (intPad 2 ((W / 3600 : ℕ) : ℤ) ++ ':' ::
            intPad 2 ((W % 3600 / 60 : ℕ) : ℤ) ++ ':' ::
            intPad 2 (((W % 60 * 1000 + mil) / 1000 : ℕ) : ℤ) ++ '.' ::
            rstripChar '0'
              (intPad 3 (((W % 60 * 1000 + mil) % 1000 : ℕ) : ℤ)))) := by
  obtain ⟨W, mil, h1, h2, h3, h4⟩ := render_decomp t ht
  have hAlast := pad_tail_getLast (intPad 2 ((W / 3600 : ℕ) : ℤ))
    (intPad 2 ((W % 3600 / 60 : ℕ) : ℤ))
    (intPad 2 (((W % 60 * 1000 + mil) / 1000 : ℕ) : ℤ))
    (intPad_digits 2 ((W % 60 * 1000 + mil) / 1000))
    (intPad_ne_nil 2 ((W % 60 * 1000 + mil) / 1000))
  refine ⟨W, mil, h1, h2, h3, ?_, ?_⟩
  · intro hfp
    rw [h4, hfp,
      show intPad 3 (((0 : ℕ) : ℤ)) = ['0', '0', '0'] by decide,
      rstrip_dot_zero _ hAlast]
  · intro hfp
    have hval : digitsToNat
        (intPad 3 (((W % 60 * 1000 + mil) % 1000 : ℕ) : ℤ)) ≠ 0 := by
      rw [intPad_val]
      exact hfp
    rw [h4, rstrip_dot_pos _ _
      (intPad_digits 3 ((W % 60 * 1000 + mil) % 1000))
      (rstrip_zero_ne_nil hval)]

unseal Rat.add Rat.mul Rat.inv Rat.sub in
/-- C9 (amended): for every canonical time `t ≥ 0` the rendering is the
display form `HH:MM:SS[.fff]`: hours unbounded (zero-padded to at least 2
digits), minutes below 60 and zero-padded to exactly 2 digits, the integer
seconds field zero-padded to exactly 2 digits and AT MOST 60 — the value 60
can be displayed when the fractional part rounds up to a full second —
fractional milliseconds with trailing zeros trimmed (the trimmed fraction
never ends in `'0'`), and the decimal point dropped when the rounded
fraction is exactly zero; in particular `render 180 = "00:03:00"` and
`render 580.5 = "00:09:40.5"`. -/
theorem claim_C9_amended :
    (∀ t : ℚ, 0 ≤ t →
      ∃ W mil : ℕ,
        ⌊t⌋ = (W : ℤ) ∧ mil ≤ 1000 ∧
        |(mil : ℚ) - Int.fract t * 1000| ≤ 1 / 2 ∧
        W % 3600 / 60 < 60 ∧
        (W % 60 * 1000 + mil) / 1000 ≤ 60 ∧
        (intPad 2 ((W % 3600 / 60 : ℕ) : ℤ)).length = 2 ∧
        (intPad 2 (((W % 60 * 1000 + mil) / 1000 : ℕ) : ℤ)).length = 2 ∧
        ((W % 60 * 1000 + mil) % 1000 = 0 →
          seconds_to_hhmmss_ms t = String.mk
            (intPad 2 ((W / 3600 : ℕ) : ℤ) ++ ':' ::
              intPad 2 ((W % 3600 / 60 : ℕ) : ℤ) ++ ':' ::
              intPad 2 (((W % 60 * 1000 + mil) / 1000 : ℕ) : ℤ))) ∧
        ((W % 60 * 1000 + mil) % 1000 ≠ 0 →
          seconds_to_hhmmss_ms t = String.mk
            (intPad 2 ((W / 3600 : ℕ) : ℤ) ++ ':' ::
              intPad 2 ((W % 3600 / 60 : ℕ) : ℤ) ++ ':' ::
              intPad 2 (((W % 60 * 1000 + mil) / 1000 : ℕ) : ℤ) ++ '.' ::
              rstripChar '0'
                (intPad 3 (((W % 60 * 1000 + mil) % 1000 : ℕ) : ℤ))) ∧
          (∀ x, (rstripChar '0'
              (intPad 3 (((W % 60 * 1000 + mil) % 1000 : ℕ) : ℤ))).getLast? =
                some x → x ≠ '0'))) ∧
    seconds_to_hhmmss_ms 180 = "00:03:00" ∧
    seconds_to_hhmmss_ms (1161 / 2) = "00:09:40.5" := by
  refine ⟨?_, by decide, by decide⟩
  intro t ht
  obtain ⟨W, mil, h1, h2, h3, hzero, hpos⟩ := render_cases t ht
  have hmm : W % 3600 / 60 < 60 := by omega
  have hip : (W % 60 * 1000 + mil) / 1000 ≤ 60 := by omega
  refine ⟨W, mil, h1, h3, h2, hmm, hip, ?_, ?_, hzero, ?_⟩
  · exact intPad_length (by omega) (by omega)
  · exact intPad_length (by omega) (by omega)
  · intro hfp
    refine ⟨hpos hfp, ?_⟩
    intro x hx
    intro hc
    have := rstrip_zero_getLast x hx
    rw [hc] at this
    simp at this

/-- Witness for C9 (amended) at `t = 580.5`, the spec's own example. -/
theorem claim_C9_amended_witness :
    (0 : ℚ) ≤ 1161 / 2 ∧
    (∃ W mil : ℕ,
      ⌊(1161 / 2 : ℚ)⌋ = (W : ℤ) ∧ mil ≤ 1000 ∧
      |(mil : ℚ) - Int.fract (1161 / 2 : ℚ) * 1000| ≤ 1 / 2 ∧
      W % 3600 / 60 < 60 ∧
      (W % 60 * 1000 + mil) / 1000 ≤ 60 ∧
      (intPad 2 ((W % 3600 / 60 : ℕ) : ℤ)).length = 2 ∧
      (intPad 2 (((W % 60 * 1000 + mil) / 1000 : ℕ) : ℤ)).length = 2 ∧
      ((W % 60 * 1000 + mil) % 1000 = 0 →
        seconds_to_hhmmss_ms (1161 / 2) = String.mk
          (intPad 2 ((W / 3600 : ℕ) : ℤ) ++ ':' ::
            intPad 2 ((W % 3600 / 60 : ℕ) : ℤ) ++ ':' ::
            intPad 2 (((W % 60 * 1000 + mil) / 1000 : ℕ) : ℤ))) ∧
      ((W % 60 * 1000 + mil) % 1000 ≠ 0 →
        seconds_to_hhmmss_ms (1161 / 2) = String.mk
          (intPad 2 ((W / 3600 : ℕ) : ℤ) ++ ':' ::
            intPad 2 ((W % 3600 / 60 : ℕ) : ℤ) ++ ':' ::
            intPad 2 (((W % 60 * 1000 + mil) / 1000 : ℕ) : ℤ) ++ '.' ::
            rstripChar '0'
              (intPad 3 (((W % 60 * 1000 + mil) % 1000 : ℕ) : ℤ))) ∧
        (∀ x, (rstripChar '0'
            (intPad 3 (((W % 60 * 1000 + mil) % 1000 : ℕ) : ℤ))).getLast? =
              some x → x ≠ '0'))) :=
  ⟨by norm_num, claim_C9_amended.1 (1161 / 2) (by norm_num)⟩

unseal Rat.add Rat.mul Rat.inv Rat.sub in
/-- Counterexample to C9 as stated: at `t = 59.9996` the millisecond
rounding carries, and the rendered string is `"00:00:60"` — its seconds
field (the digits after the last `':'`) reads `60`, which is not below 60. -/
theorem claim_C9_counterexample :
    seconds_to_hhmmss_ms (599996 / 10000) = "00:00:60" ∧
    ("00:00:60".toList.reverse.takeWhile (fun c => c ≠ ':')).reverse =
      ['6', '0'] ∧
    digitsToNat ['6', '0'] = 60 ∧ ¬(digitsToNat ['6', '0'] < 60) :=
  ⟨by decide, by decide, by decide, by decide⟩

lemma approx_final (t v : ℚ) (W mil : ℕ) (hW : ⌊t⌋ = (W : ℤ))
    (hmil : |(mil : ℚ) - Int.fract t * 1000| ≤ 1 / 2)
    (hv : v = (W : ℚ) + (mil : ℚ) / 1000) : |v - t| ≤ 1 / 2000 := by
  set F := Int.fract t with hF
  have ht : ((W : ℚ)) + F = t := by
    have h := Int.floor_add_fract t
    rw [hW, ← hF] at h
    exact_mod_cast h
  have heq : v - t = ((mil : ℚ) - F * 1000) / 1000 := by
    rw [hv, ← ht]
    ring
  rw [heq, abs_div, abs_of_pos (show (0 : ℚ) < 1000 by norm_num)]
  have h2 : |(mil : ℚ) - Int.fract t * 1000| / 1000 ≤ (1 / 2) / 1000 :=
    (div_le_div_right (by norm_num)).mpr hmil
  have h3 : ((1 : ℚ) / 2) / 1000 = 1 / 2000 := by norm_num
  linarith

lemma trimmed_frac_val (fp : ℕ) (hlt : fp < 1000) (hne : fp ≠ 0) :
    (digitsToNat (rstripChar '0' (intPad 3 ((fp : ℕ) : ℤ))) : ℚ) /
        10 ^ (rstripChar '0' (intPad 3 ((fp : ℕ) : ℤ))).length =
      (fp : ℚ) / 1000 := by
  have hsplit := rstrip_zero_split (intPad 3 ((fp : ℕ) : ℤ))
  set B := intPad 3 ((fp : ℕ) : ℤ) with hB
  set R := rstripChar '0' B with hR
  set k := (B.reverse.takeWhile (fun d => d = '0')).length with hk
  have hval : digitsToNat B = digitsToNat R * 10 ^ k := by
    conv_lhs => rw [hsplit]
    exact digitsToNat_append_zeros R k
  have hvB : digitsToNat B = fp := intPad_val 3 fp
  have hlen : B.length = R.length + k := by
    conv_lhs => rw [hsplit]
    simp
  have hlB : B.length = 3 := intPad_length (by omega) (by omega)
  have hfpq : (fp : ℚ) = (digitsToNat R : ℚ) * 10 ^ k := by
    rw [← hvB, hval]
    push_cast
    ring
  have h3 : 3 = R.length + k := by omega
  rw [hfpq, show (1000 : ℚ) = 10 ^ (3 : ℕ) by norm_num, h3, pow_add]
  rw [mul_div_mul_right _ _ (by positivity : ((10 : ℚ) ^ k) ≠ 0)]

/-- C5 (amended): for every canonical time `0 ≤ t < 360000` (below 100
hours, so that the rendered hour field has at most 2 digits), the rendered
timestamp is accepted by the clock (`_ts_hms`) form of `hhmmss_to_seconds`
and re-parses to a value within half a millisecond of `t` (the rendering
rounds to 3 decimal places). -/
theorem claim_C5_amended (t : ℚ) (h0 : 0 ≤ t) (hlt : t < 360000) :
    ∃ v : ℚ, tsHms (pyStrip (seconds_to_hhmmss_ms t).toList) = some v ∧
      hhmmss_to_seconds (seconds_to_hhmmss_ms t) = .ok v ∧
      |v - t| ≤ 1 / 2000 := by
  obtain ⟨W, mil, hW, hmil, hmil1000, hzero, hposc⟩ := render_cases t h0
  have hWlt : W < 360000 := by
    have h1 : ((W : ℤ) : ℚ) ≤ t := by
      rw [← hW]
      exact Int.floor_le t
    have h2 : ((W : ℚ)) < 360000 := by
      push_cast at h1
      linarith
    exact_mod_cast h2
  set hh := W / 3600 with hhdef
  set mm := W % 3600 / 60 with hmmdef
  set SM := W % 60 * 1000 + mil with hSMdef
  set ip := SM / 1000 with hipdef
  set fp := SM % 1000 with hfpdef
  have hhle : hh ≤ 99 := by omega
  have hmmle : mm ≤ 59 := by omega
  have hiple : ip ≤ 60 := by omega
  have hfplt : fp < 1000 := by omega
  have P1d := intPad_digits 2 hh
  have P1ne := intPad_ne_nil 2 hh
  have P1len : (intPad 2 ((hh : ℕ) : ℤ)).length ≤ 2 :=
    le_of_eq (intPad_length (by omega) (by omega))
  have P2d := intPad_digits 2 mm
  have P2ne := intPad_ne_nil 2 mm
  have P2len : (intPad 2 ((mm : ℕ) : ℤ)).length ≤ 2 :=
    le_of_eq (intPad_length (by omega) (by omega))
  have P3d := intPad_digits 2 ip
  have P3ne := intPad_ne_nil 2 ip
  have P3len : (intPad 2 ((ip : ℕ) : ℤ)).length ≤ 2 :=
    le_of_eq (intPad_length (by omega) (by omega))
  have e1 : 3600 * hh + 60 * mm + W % 60 = W := by omega
  by_cases hc : fp = 0
  · have hrender := hzero hc
    have hparse := tsHms_eval3 (intPad 2 ((hh : ℕ) : ℤ))
      (intPad 2 ((mm : ℕ) : ℤ)) (intPad 2 ((ip : ℕ) : ℤ)) []
      P1ne P1len P1d P2ne P2len P2d P3ne P3len P3d (Or.inl rfl)
    have hns := clock_nonspace (intPad 2 ((hh : ℕ) : ℤ))
      (intPad 2 ((mm : ℕ) : ℤ)) (intPad 2 ((ip : ℕ) : ℤ)) []
      P1d P2d P3d (by simp)
    rw [show (if ([] : List Char).isEmpty then ([] : List Char)
      else '.' :: []) = [] from rfl] at hparse hns
    have hassoc : intPad 2 ((hh : ℕ) : ℤ) ++ ':' ::
        (intPad 2 ((mm : ℕ) : ℤ) ++ ':' :: (intPad 2 ((ip : ℕ) : ℤ) ++ [])) =
        intPad 2 ((hh : ℕ) : ℤ) ++ ':' :: intPad 2 ((mm : ℕ) : ℤ) ++ ':' ::
          intPad 2 ((ip : ℕ) : ℤ) := by
      simp
    rw [hassoc] at hparse hns
    rw [decVal_nil_frac, intPad_val, intPad_val, intPad_val] at hparse
    refine ⟨(hh : ℚ) * 3600 + (mm : ℚ) * 60 + (ip : ℚ), ?_, ?_, ?_⟩
    · rw [hrender]
      rw [show (String.mk (intPad 2 ((hh : ℕ) : ℤ) ++ ':' ::
        intPad 2 ((mm : ℕ) : ℤ) ++ ':' :: intPad 2 ((ip : ℕ) : ℤ))).toList =
        intPad 2 ((hh : ℕ) : ℤ) ++ ':' :: intPad 2 ((mm : ℕ) : ℤ) ++ ':' ::
        intPad 2 ((ip : ℕ) : ℤ) from rfl]
      rw [pyStrip_eq_self hns]
      exact hparse
    · rw [hrender]
      exact hhmmss_mk_of_tsHms hns hparse
    · apply approx_final t _ W mil hW hmil
      have e2 : ip * 1000 = W % 60 * 1000 + mil := by omega
      have e1q : (3600 : ℚ) * hh + 60 * mm + (W % 60 : ℕ) = W := by
        exact_mod_cast congrArg (fun n : ℕ => (n : ℚ)) e1
      have e2q : (ip : ℚ) * 1000 = (W % 60 : ℕ) * 1000 + mil := by
        exact_mod_cast congrArg (fun n : ℕ => (n : ℚ)) e2
      linarith
  · have hrender := hposc hc
    set f := rstripChar '0' (intPad 3 ((fp : ℕ) : ℤ)) with hfdef
    have hfne : f ≠ [] := by
      apply rstrip_zero_ne_nil
      rw [intPad_val]
      exact hc
    have hfd : ∀ c ∈ f, c.isDigit = true := fun c hcm =>
      intPad_digits 3 fp c (rstrip_zero_mem hcm)
    have hparse := tsHms_eval3 (intPad 2 ((hh : ℕ) : ℤ))
      (intPad 2 ((mm : ℕ) : ℤ)) (intPad 2 ((ip : ℕ) : ℤ)) f
      P1ne P1len P1d P2ne P2len P2d P3ne P3len P3d (Or.inr ⟨hfne, hfd⟩)
    have hns := clock_nonspace (intPad 2 ((hh : ℕ) : ℤ))
      (intPad 2 ((mm : ℕ) : ℤ)) (intPad 2 ((ip : ℕ) : ℤ)) f
      P1d P2d P3d hfd
    rw [if_neg (by simpa [List.isEmpty_iff] using hfne)] at hparse hns
    have hassoc : intPad 2 ((hh : ℕ) : ℤ) ++ ':' ::
        (intPad 2 ((mm : ℕ) : ℤ) ++ ':' ::
          (intPad 2 ((ip : ℕ) : ℤ) ++ '.' :: f)) =
        intPad 2 ((hh : ℕ) : ℤ) ++ ':' :: intPad 2 ((mm : ℕ) : ℤ) ++ ':' ::
          intPad 2 ((ip : ℕ) : ℤ) ++ '.' :: f := by
      simp
    rw [hassoc] at hparse hns
    rw [intPad_val, intPad_val] at hparse
    have hdv : decVal (intPad 2 ((ip : ℕ) : ℤ)) f =
        (ip : ℚ) + (fp : ℚ) / 1000 := by
      unfold decVal
      rw [intPad_val, hfdef, trimmed_frac_val fp hfplt hc]
    rw [hdv] at hparse
    refine ⟨(hh : ℚ) * 3600 + (mm : ℚ) * 60 + ((ip : ℚ) + (fp : ℚ) / 1000),
      ?_, ?_, ?_⟩
    · rw [hrender]
      rw [show (String.mk (intPad 2 ((hh : ℕ) : ℤ) ++ ':' ::
        intPad 2 ((mm : ℕ) : ℤ) ++ ':' :: intPad 2 ((ip : ℕ) : ℤ) ++
        '.' :: f)).toList =
        intPad 2 ((hh : ℕ) : ℤ) ++ ':' :: intPad 2 ((mm : ℕ) : ℤ) ++ ':' ::
        intPad 2 ((ip : ℕ) : ℤ) ++ '.' :: f from rfl]
      rw [pyStrip_eq_self hns]
      exact hparse
    · rw [hrender]
      exact hhmmss_mk_of_tsHms hns hparse
    · apply approx_final t _ W mil hW hmil
      have e2 : ip * 1000 + fp = W % 60 * 1000 + mil := by omega
      have e1q : (3600 : ℚ) * hh + 60 * mm + (W % 60 : ℕ) = W := by
        exact_mod_cast congrArg (fun n : ℕ => (n : ℚ)) e1
      have e2q : (ip : ℚ) * 1000 + fp = (W % 60 : ℕ) * 1000 + mil := by
        exact_mod_cast congrArg (fun n : ℕ => (n : ℚ)) e2
      linarith

unseal Rat.add Rat.mul Rat.inv Rat.sub in
/-- Witness for C5 (amended) at `t = 580.5`: the rendering re-parses through
the clock form within half a millisecond. -/
theorem claim_C5_amended_witness :
    (0 : ℚ) ≤ 1161 / 2 ∧ (1161 / 2 : ℚ) < 360000 ∧
    (∃ v : ℚ, tsHms (pyStrip (seconds_to_hhmmss_ms (1161 / 2)).toList) =
        some v ∧
      hhmmss_to_seconds (seconds_to_hhmmss_ms (1161 / 2)) = .ok v ∧
      |v - (1161 / 2 : ℚ)| ≤ 1 / 2000) :=
  ⟨by norm_num, by norm_num,
    claim_C5_amended (1161 / 2) (by norm_num) (by norm_num)⟩

unseal Rat.add Rat.mul Rat.inv Rat.sub in
/-- Counterexample to C5 as stated: at `t = 360000` (100 hours) the rendered
string `"100:00:00"` has a 3-digit hour field, which the clock regex
(`\d{1,2}` hours) rejects, so the round-trip fails entirely; and at
`t = 0.0001` the render is `"00:00:00"`, which re-parses to `0`, losing
`10^-4` — far more than any floating-point tolerance. -/
theorem claim_C5_counterexample :
    seconds_to_hhmmss_ms 360000 = "100:00:00" ∧
    hhmmss_to_seconds "100:00:00" =
      .error "Unrecognized timestamp format: 100:00:00" ∧
    seconds_to_hhmmss_ms (1 / 10000) = "00:00:00" ∧
    hhmmss_to_seconds "00:00:00" = .ok 0 ∧
    (1 / 10000 : ℚ) ≠ 0 :=
  ⟨by decide, by decide, by decide, by decide, by decide⟩

end GrabBurst
